import Mathlib

/-!
Verification of the BooTTY / vscode-ghostty terminal extension core.

This file shallowly embeds, in Lean, the parts of the repository that the
frozen claims are about:

* `src/terminal-utils.ts` — `resolveConfig` (spawn-environment construction),
  `MAX_DATA_QUEUE_SIZE`, timeout constants;
* `src/file-cache.ts` — the TTL + LRU file-existence cache (`createFileCache`);
* `src/webview/panel-main.ts` — the debounced batch file-existence
  coordinator (`_checkFileExists`, `flushBatchFileChecks`, the per-batch
  timeout, and the `batch-file-exists-result` handler);
* `src/terminal-manager.ts` — the `TerminalManager` session registry
  (`handlePtyData`, `handleTerminalReady`, `destroyTerminal`,
  `handlePtyExit`, `handlePtyError`, index allocation, ready timeouts).

JavaScript `Map`s are modelled as association lists in insertion order,
`Set<number>` as a duplicate-free list, and JS object environments as
partial maps `String → Option String`.  Timer handles (`setTimeout`) are
modelled explicitly: an armed timer is an entry in a timer list in the
state, arming appends to the list, `clearTimeout` removes from it, and a
timer firing is a separate transition that is a no-op unless the timer is
armed.  Side effects that cross a component boundary (messages posted to a
webview, PTY resize/kill calls, VS Code notifications) are recorded in
append-only effect traces so that ordering and duplication claims can be
stated about them.  All functions are total: the model cannot throw, which
mirrors the fact that the corresponding source paths contain no `throw`.
-/

/-! ## Constants from `src/terminal-utils.ts` and `src/webview/panel-main.ts` -/

/-- `MAX_DATA_QUEUE_SIZE = 1000` — max buffered chunks per session. -/
def MAX_DATA_QUEUE_SIZE : Nat := 1000

/-- `READY_TIMEOUT_MS = 10000` — handshake deadline. -/
def READY_TIMEOUT_MS : Nat := 10000

/-- `EXIT_CLOSE_DELAY_MS = 1500` — grace delay before closing after PTY exit. -/
def EXIT_CLOSE_DELAY_MS : Nat := 1500

/-- `BATCH_DEBOUNCE_MS = 50` — debounce window of the batch coordinator. -/
def BATCH_DEBOUNCE_MS : Nat := 50

/-- The per-batch reply timeout (2000 ms) hard-coded in `flushBatchFileChecks`. -/
def BATCH_TIMEOUT_MS : Nat := 2000

/-- TTL passed to `createFileCache(5000, 100)` in the panel webview. -/
def FILE_CACHE_TTL_MS : Nat := 5000

/-- Max size passed to `createFileCache(5000, 100)` in the panel webview. -/
def FILE_CACHE_MAX_SIZE : Nat := 100

/-! ## `resolveConfig` from `src/terminal-utils.ts`

A JS object used as a string record is modelled extensionally as a partial
map from key to value; a spread chain `{...a, k: v, ...b}` is modelled by
its lookup semantics (rightmost present key wins). -/

/-- `Record<string, string>`, read through JS property lookup. -/
def EnvMap : Type := String → Option String

/-- `TerminalConfig` from `src/types/terminal.ts` as used by `resolveConfig`. -/
structure TerminalConfig where
  shell : Option String
  cwd : Option String
  env : Option EnvMap
  cols : Nat
  rows : Nat

/-- `DEFAULT_CONFIG`: shell/cwd/env undefined, 80×24. -/
def DEFAULT_CONFIG : TerminalConfig :=
  { shell := Option.none, cwd := Option.none, env := Option.none
    cols := 80, rows := 24 }

/-- `Partial<TerminalConfig>`: every field optionally present. -/
structure UserTerminalConfig where
  shell : Option String := Option.none
  cwd : Option String := Option.none
  env : Option EnvMap := Option.none
  cols : Option Nat := Option.none
  rows : Option Nat := Option.none

/-- The env object literal of `resolveConfig`:
`{ ...process.env, TERM_PROGRAM: "ghostty_vscode",
   TERM_PROGRAM_VERSION: "0.4.0", COLORTERM: "truecolor",
   ...(partial?.env ?? {}) }`, read through lookup semantics:
a key present in the user env wins, otherwise one of the three forced
identification variables, otherwise the inherited process environment. -/
def resolvedEnv (processEnv : EnvMap) (userEnv : Option EnvMap) : EnvMap :=
  fun k =>
    match (userEnv.getD (fun _ => Option.none)) k with
    | some v => some v
    | Option.none =>
      if k = "TERM_PROGRAM" then some "ghostty_vscode"
      else if k = "TERM_PROGRAM_VERSION" then some "0.4.0"
      else if k = "COLORTERM" then some "truecolor"
      else processEnv k

/-- `resolveConfig(partial?)` — merge user config with `DEFAULT_CONFIG`
(`{...DEFAULT_CONFIG, ...partial}` is field-wise right bias) and build the
spawn environment.  `process.env` is an explicit argument since the model
has no ambient process state. -/
def resolveConfig (processEnv : EnvMap) (user? : Option UserTerminalConfig) :
    TerminalConfig :=
  let u := user?.getD {}
  { shell := u.shell.orElse (fun _ => DEFAULT_CONFIG.shell)
    cwd := u.cwd.orElse (fun _ => DEFAULT_CONFIG.cwd)
    env := some (resolvedEnv processEnv ((user?.map (fun p => p.env)).getD Option.none))
    cols := u.cols.getD DEFAULT_CONFIG.cols
    rows := u.rows.getD DEFAULT_CONFIG.rows }

/-! ## The file-existence cache from `src/file-cache.ts`

`createFileCache(ttlMs, maxSize)` closes over a `Map<string, CacheEntry>`;
the map is modelled as an association list in insertion order (head =
oldest = the key `cache.keys().next().value` yields).  `Date.now()` is an
explicit `now` argument. -/

/-- `CacheEntry { exists, timestamp }`. -/
structure CacheEntry where
  fileExists : Bool
  timestamp : Nat
deriving DecidableEq, Repr

/-- `cache.get(path)` on the underlying `Map` (no TTL/LRU logic). -/
def cacheFind (c : List (String × CacheEntry)) (p : String) : Option CacheEntry :=
  (c.find? (fun e => e.1 == p)).map (fun e => e.2)

/-- `cache.delete(path)` on the underlying `Map`. -/
def cacheDelete (c : List (String × CacheEntry)) (p : String) :
    List (String × CacheEntry) :=
  c.filter (fun e => e.1 != p)

/-- `FileCache.get`: miss on absent key; expired entries are deleted and
report a miss; a hit deletes and re-appends the entry (LRU refresh) and
returns its `exists` flag.  Returns the value and the updated map. -/
def fileCacheGet (ttlMs now : Nat) (c : List (String × CacheEntry)) (p : String) :
    Option Bool × List (String × CacheEntry) :=
  match cacheFind c p with
  | Option.none => (Option.none, c)
  | some entry =>
    if ttlMs < now - entry.timestamp then (Option.none, cacheDelete c p)
    else (some entry.fileExists, cacheDelete c p ++ [(p, entry)])

/-- `FileCache.set`: an existing key is deleted first (position refresh,
no eviction); otherwise, at capacity, the first (oldest) key is evicted —
unless it is absent or the empty string, which is falsy in the source's
`if (firstKey)` guard — and the new entry is appended. -/
def fileCacheSet (maxSize now : Nat) (c : List (String × CacheEntry))
    (p : String) (v : Bool) : List (String × CacheEntry) :=
  if (cacheFind c p).isSome then
    cacheDelete c p ++ [(p, ⟨v, now⟩)]
  else if maxSize ≤ c.length then
    match c with
    | [] => [(p, ⟨v, now⟩)]
    | (k, _) :: _ =>
      if k = "" then c ++ [(p, ⟨v, now⟩)]
      else cacheDelete c k ++ [(p, ⟨v, now⟩)]
  else c ++ [(p, ⟨v, now⟩)]

/-! ## The batch file-existence coordinator from `src/webview/panel-main.ts`

Callbacks (promise resolvers created by `new Promise`) are identified by
opaque numeric tokens; invoking a callback with a boolean is recorded in
the `resolvedCallbacks` trace.  `fileCache.set` calls are additionally
recorded in the `cacheWrites` trace so that claims about which writes are
issued can be separated from the TTL/LRU fate of the entries. -/

/-- Webview-side coordinator state.  `pendingBatches` is
`Map<batchId, Map<path, callbacks[]>>`; `currentBatchCallbacks` the batch
being accumulated; `batchTimeouts` the armed per-batch timeout timers;
`sentBatches` the trace of `batch-check-file-exists` messages posted to the
extension; `debounceArmed` whether `batchDebounceTimer` is non-null. -/
structure CoordState where
  fileCache : List (String × CacheEntry)
  nextBatchId : Nat
  pendingBatches : List (Nat × List (String × List Nat))
  currentBatchCallbacks : List (String × List Nat)
  currentBatchId : Nat
  debounceArmed : Bool
  batchTimeouts : List Nat
  sentBatches : List (Nat × List String)
  resolvedCallbacks : List (Nat × Bool)
  cacheWrites : List (String × Bool)
deriving DecidableEq, Repr

/-- Initial webview state: `nextBatchId = 0` then
`currentBatchId = nextBatchId++`. -/
def initCoordState : CoordState :=
  { fileCache := [], nextBatchId := 1, pendingBatches := []
    currentBatchCallbacks := [], currentBatchId := 0, debounceArmed := false
    batchTimeouts := [], sentBatches := [], resolvedCallbacks := []
    cacheWrites := [] }

/-- Lookup in a `Map<path, callbacks[]>`. -/
def batchFind (batch : List (String × List Nat)) (p : String) : Option (List Nat) :=
  (batch.find? (fun e => e.1 == p)).map (fun e => e.2)

/-- Lookup in `pendingBatches`. -/
def pendingFind (pending : List (Nat × List (String × List Nat))) (batchId : Nat) :
    Option (List (String × List Nat)) :=
  (pending.find? (fun b => b.1 == batchId)).map (fun b => b.2)

/-- `_checkFileExists(path)`: on a cache hit the caller resolves at once;
on a miss the resolver is appended to the current batch's entry for the
path (creating the entry if absent) and the debounce timer is (re)armed. -/
def checkFileExists (now : Nat) (s : CoordState) (cb : Nat) (p : String) :
    CoordState :=
  let r := fileCacheGet FILE_CACHE_TTL_MS now s.fileCache p
  let s := { s with fileCache := r.2 }
  match r.1 with
  | some b => { s with resolvedCallbacks := s.resolvedCallbacks ++ [(cb, b)] }
  | Option.none =>
    let cbs :=
      match batchFind s.currentBatchCallbacks p with
      | some _ =>
        s.currentBatchCallbacks.map (fun e => if e.1 = p then (e.1, e.2 ++ [cb]) else e)
      | Option.none => s.currentBatchCallbacks ++ [(p, [cb])]
    { s with currentBatchCallbacks := cbs, debounceArmed := true }

/-- `flushBatchFileChecks`: seal the accumulating batch under
`currentBatchId`, move it to `pendingBatches`, start a fresh batch under
`nextBatchId++`, post one `batch-check-file-exists` message with the
batch's paths in insertion order, and arm that batch's 2000 ms timeout. -/
def flushBatchFileChecks (s : CoordState) : CoordState :=
  if s.currentBatchCallbacks.isEmpty then s
  else
    let batchId := s.currentBatchId
    let batchCallbacks := s.currentBatchCallbacks
    let s := { s with pendingBatches := s.pendingBatches ++ [(batchId, batchCallbacks)] }
    let s := { s with currentBatchId := s.nextBatchId, nextBatchId := s.nextBatchId + 1
                      currentBatchCallbacks := [] }
    { s with sentBatches := s.sentBatches ++ [(batchId, batchCallbacks.map (fun e => e.1))]
             batchTimeouts := s.batchTimeouts ++ [batchId] }

/-- The debounce timer firing: `batchDebounceTimer = null; flushBatchFileChecks()`.
A no-op if the timer is not armed. -/
def debounceFire (s : CoordState) : CoordState :=
  if s.debounceArmed then flushBatchFileChecks { s with debounceArmed := false } else s

/-- One step of the per-batch timeout loop: cache `false` for the entry's
path and resolve each of its callbacks with `false`. -/
def applyTimeoutEntry (now : Nat) (acc : CoordState) (e : String × List Nat) :
    CoordState :=
  { acc with
    fileCache := fileCacheSet FILE_CACHE_MAX_SIZE now acc.fileCache e.1 false
    cacheWrites := acc.cacheWrites ++ [(e.1, false)]
    resolvedCallbacks := acc.resolvedCallbacks ++ e.2.map (fun cb => (cb, false)) }

/-- The per-batch 2000 ms timeout firing: if the batch is still pending,
remove it and fold `applyTimeoutEntry` over its entries in order.  A no-op
on the batch content if the batch was already removed by a reply. -/
def batchTimeoutFire (now : Nat) (s : CoordState) (batchId : Nat) : CoordState :=
  if s.batchTimeouts.contains batchId then
    let s := { s with batchTimeouts := s.batchTimeouts.erase batchId }
    match pendingFind s.pendingBatches batchId with
    | Option.none => s
    | some batch =>
      let s := { s with pendingBatches := s.pendingBatches.filter (fun b => b.1 != batchId) }
      batch.foldl (applyTimeoutEntry now) s
  else s

/-- One step of the `batch-file-exists-result` reply loop: a reply entry
whose path has callbacks in the batch caches the replied existence and
resolves those callbacks with it; reply paths absent from the batch are
skipped.  Batch paths absent from the reply are never touched by the loop
(their callbacks are never invoked). -/
def applyResultEntry (now : Nat) (batch : List (String × List Nat))
    (acc : CoordState) (r : String × Bool) : CoordState :=
  match batchFind batch r.1 with
  | Option.none => acc
  | some cbs =>
    { acc with
      fileCache := fileCacheSet FILE_CACHE_MAX_SIZE now acc.fileCache r.1 r.2
      cacheWrites := acc.cacheWrites ++ [(r.1, r.2)]
      resolvedCallbacks := acc.resolvedCallbacks ++ cbs.map (fun cb => (cb, r.2)) }

/-- The `batch-file-exists-result` handler, continued: remove the batch,
then fold `applyResultEntry` over the reply's results in order. -/
def handleBatchFileExistsResult (now : Nat) (s : CoordState) (batchId : Nat)
    (results : List (String × Bool)) : CoordState :=
  match pendingFind s.pendingBatches batchId with
  | Option.none => s
  | some batch =>
    let s := { s with pendingBatches := s.pendingBatches.filter (fun b => b.1 != batchId) }
    results.foldl (applyResultEntry now batch) s

/-- The callback resolutions appended by `handleBatchFileExistsResult`
for batch `batch` and reply `results`, in order. -/
def resolveDelta (batch : List (String × List Nat)) :
    List (String × Bool) → List (Nat × Bool)
  | [] => []
  | r :: rs =>
    (match batchFind batch r.1 with
     | Option.none => []
     | some cbs => cbs.map (fun cb => (cb, r.2))) ++ resolveDelta batch rs

/-! ## Data model of `TerminalManager` from `src/terminal-manager.ts`

Terminal IDs are UUIDs in the source (`createTerminalId`), whose only used
property is freshness; the model draws them from a `nextId` counter.  The
ambient VS Code configuration read inside `handleTerminalReady`
(`getDisplaySettings`, `resolveTerminalTheme`, `getRuntimeConfig`) is
passed in as arguments of the transition, and the OSC 7 / OSC 9 regex
scanners `parseOSC7`/`parseOSC9` are parameters of the data-path
transitions (the claims hold for every scanner result). -/

/-- The topology tag of `TerminalInstance`. -/
inductive TerminalLocation where
  | editor
  | panel
deriving DecidableEq, Repr

/-- `DisplaySettings` from `src/types/messages.ts`. -/
structure DisplaySettings where
  fontFamily : String
  fontSize : Nat
deriving DecidableEq, Repr

/-- `bootty.bell` setting. -/
inductive BellStyle where
  | visual
  | silent
deriving DecidableEq, Repr

/-- `RuntimeConfig` from `src/types/messages.ts`. -/
structure RuntimeConfig where
  bellStyle : BellStyle
deriving DecidableEq, Repr

/-- `TerminalTheme` from `src/types/messages.ts` (all fields optional). -/
structure TerminalTheme where
  foreground : Option String := Option.none
  background : Option String := Option.none
  cursor : Option String := Option.none
  cursorAccent : Option String := Option.none
  selectionBackground : Option String := Option.none
  selectionForeground : Option String := Option.none
  black : Option String := Option.none
  red : Option String := Option.none
  green : Option String := Option.none
  yellow : Option String := Option.none
  blue : Option String := Option.none
  magenta : Option String := Option.none
  cyan : Option String := Option.none
  white : Option String := Option.none
  brightBlack : Option String := Option.none
  brightRed : Option String := Option.none
  brightGreen : Option String := Option.none
  brightYellow : Option String := Option.none
  brightBlue : Option String := Option.none
  brightMagenta : Option String := Option.none
  brightCyan : Option String := Option.none
  brightWhite : Option String := Option.none
deriving DecidableEq, Repr

/-- `ExtensionMessage`s that `TerminalManager` posts through
`postToTerminal` (the webview-bound vocabulary the claims are about). -/
inductive Msg where
  | updateSettings (settings : DisplaySettings)
  | updateTheme (theme : TerminalTheme)
  | updateConfig (config : RuntimeConfig)
  | updateCwd (cwd : String)
  | ptyData (data : String)
  | ptyExit (exitCode : Int)
deriving DecidableEq, Repr

/-- `TerminalInstance` (the fields the claims touch; the editor variant's
`panel` handle and the webview plumbing are represented by the effect
traces on the manager state). -/
structure Instance where
  location : TerminalLocation
  ready : Bool
  dataQueue : List String
  title : String
  index : Option Nat
  currentCwd : Option String := Option.none
deriving DecidableEq, Repr

/-- `TerminalManager` state plus append-only effect traces.

* `terminals` — the `Map<TerminalId, TerminalInstance>` registry;
* `usedIndices` — the `Set<number>` of reserved indices;
* `nextId` — freshness source for `createTerminalId()`;
* `uiTrace` — messages delivered to a session's UI channel, tagged with the
  session the `postToTerminal` call addressed;
* `ptyResizes`/`ptyWrites`/`ptyKills`/`ptySpawns` — calls into `PtyService`;
* `readyTimers` — sessions whose ready-timeout `setTimeout` is armed;
* `exitTimers` — armed exit-grace `setTimeout`s from `handlePtyExit`
  (the source never stores these handles);
* `notifications` — `showInformationMessage` calls for OSC 9 payloads;
* `panelRemovals`/`panelDisposals`/`closePanelCount` — surface teardown
  effects of `destroyTerminal`;
* `panelVisible` — the ambient `panelProvider.isVisible` flag. -/
structure MState where
  terminals : List (Nat × Instance)
  usedIndices : List Nat
  nextId : Nat
  uiTrace : List (Nat × Msg)
  ptyResizes : List (Nat × Nat × Nat)
  ptyWrites : List (Nat × String)
  ptyKills : List Nat
  ptySpawns : List Nat
  readyTimers : List Nat
  exitTimers : List Nat
  notifications : List String
  panelRemovals : List Nat
  panelDisposals : List Nat
  closePanelCount : Nat
  panelVisible : Bool
deriving DecidableEq, Repr

/-- The manager state of a freshly constructed `TerminalManager`. -/
def initMState : MState :=
  { terminals := [], usedIndices := [], nextId := 0, uiTrace := []
    ptyResizes := [], ptyWrites := [], ptyKills := [], ptySpawns := []
    readyTimers := [], exitTimers := [], notifications := []
    panelRemovals := [], panelDisposals := [], closePanelCount := 0
    panelVisible := true }

/-- `this.terminals.get(id)`. -/
def lookupT (m : List (Nat × Instance)) (id : Nat) : Option Instance :=
  (m.find? (fun p => p.1 == id)).map (fun p => p.2)

/-- In-place mutation of the instance object stored under `id`. -/
def updateInst (m : List (Nat × Instance)) (id : Nat) (f : Instance → Instance) :
    List (Nat × Instance) :=
  m.map (fun p => if p.1 = id then (p.1, f p.2) else p)

/-- `this.terminals.delete(id)`. -/
def eraseT (m : List (Nat × Instance)) (id : Nat) : List (Nat × Instance) :=
  m.filter (fun p => p.1 != id)

/-- `this.terminals.set(id, instance)` (overwrite or append). -/
def setT (m : List (Nat × Instance)) (id : Nat) (inst : Instance) :
    List (Nat × Instance) :=
  if (m.find? (fun p => p.1 == id)).isSome then
    m.map (fun p => if p.1 = id then (id, inst) else p)
  else m ++ [(id, inst)]

/-- `Set.add`. -/
def addSet (l : List Nat) (x : Nat) : List Nat :=
  if l.contains x then l else l ++ [x]

/-- The `while (this.usedIndices.has(index)) index++` loop of
`getNextIndex`, fuelled: `used.length + 1` candidates always suffice. -/
def getNextIndexGo (used : List Nat) : Nat → Nat → Nat
  | i, 0 => i
  | i, fuel + 1 => if used.contains i then getNextIndexGo used (i + 1) fuel else i

/-- `getNextIndex` (without the `usedIndices.add` side effect, which the
callers below perform): the smallest positive integer not in `used`. -/
def getNextIndex (used : List Nat) : Nat :=
  getNextIndexGo used 1 (used.length + 1)

/-- The `\d+` capture of the title match: at least one character, all
ASCII digits, read as a decimal number. -/
def digitsToNat (cs : List Char) : Option Nat :=
  if cs.isEmpty then Option.none
  else if cs.all (fun c => c.isDigit) then
    some (cs.foldl (fun n c => n * 10 + (c.toNat - 48)) 0)
  else Option.none

/-- The `/^Terminal (\d+)$/` match of `createPanelTerminalWithTitle`:
a literal `"Terminal "` prefix followed by nothing but ASCII digits
(stated over the title's character list). -/
def parseTerminalTitle (title : String) : Option Nat :=
  if title.data.take 9 = "Terminal ".data then digitsToNat (title.data.drop 9)
  else Option.none

/-- `postToTerminal(id, message)`: drop the message unless the session is
registered and ready, else deliver it on the session's UI channel. -/
def postToTerminal (s : MState) (id : Nat) (msg : Msg) : MState :=
  match lookupT s.terminals id with
  | Option.none => s
  | some inst =>
    if inst.ready then { s with uiTrace := s.uiTrace ++ [(id, msg)] } else s

/-- `handlePtyData(id, data)`: ignore unregistered sessions; scan the chunk
for an OSC 7 working-directory report (update `currentCwd`, and notify a
ready UI) and an OSC 9 notification (surface it if enabled); then either
buffer the chunk (not ready, queue under `MAX_DATA_QUEUE_SIZE`; silently
dropped at the cap) or forward it as `pty-data`. -/
def handlePtyData (osc7 osc9 : String → Option String) (notifEnabled : Bool)
    (s : MState) (id : Nat) (data : String) : MState :=
  match lookupT s.terminals id with
  | Option.none => s
  | some inst =>
    let s :=
      match osc7 data with
      | some cwd =>
        let s := { s with terminals := updateInst s.terminals id
                            (fun j => { j with currentCwd := some cwd }) }
        if inst.ready then postToTerminal s id (Msg.updateCwd cwd) else s
      | Option.none => s
    let s :=
      match osc9 data with
      | some m => if notifEnabled then { s with notifications := s.notifications ++ [m] } else s
      | Option.none => s
    if inst.ready = false then
      if inst.dataQueue.length < MAX_DATA_QUEUE_SIZE then
        { s with terminals := updateInst s.terminals id
                   (fun j => { j with dataQueue := j.dataQueue ++ [data] }) }
      else s
    else
      postToTerminal s id (Msg.ptyData data)

/-- `handleTerminalReady(id, cols, rows)`: ignore unregistered sessions;
clear the ready timeout, resize the PTY to the UI-reported dimensions,
mark ready, post settings, theme and runtime config, flush the buffered
queue in order, then clear it.  `settings`, `theme` and `config` are the
ambient VS Code values read by the source at this point. -/
def handleTerminalReady (s : MState) (id cols rows : Nat)
    (settings : DisplaySettings) (theme : TerminalTheme) (config : RuntimeConfig) :
    MState :=
  match lookupT s.terminals id with
  | Option.none => s
  | some inst =>
    let s := { s with readyTimers := s.readyTimers.filter (fun i => i != id) }
    let s := { s with ptyResizes := s.ptyResizes ++ [(id, cols, rows)] }
    let s := { s with terminals := updateInst s.terminals id (fun j => { j with ready := true }) }
    let s := postToTerminal s id (Msg.updateSettings settings)
    let s := postToTerminal s id (Msg.updateTheme theme)
    let s := postToTerminal s id (Msg.updateConfig config)
    let s := inst.dataQueue.foldl (fun acc d => postToTerminal acc id (Msg.ptyData d)) s
    { s with terminals := updateInst s.terminals id (fun j => { j with dataQueue := [] }) }

/-- The not-yet-ready instance registered by a standard creation:
`Terminal N` title, empty queue, reserved index `N`. -/
def mkCreatedInst (loc : TerminalLocation) (index : Nat) : Instance :=
  { location := loc, ready := false, dataQueue := []
    title := "Terminal " ++ toString index, index := some index }

/-- `createPanelTerminal` / `createEditorTerminal` (they differ only in the
surface bookkeeping): allocate a fresh id and the next free index, register
the instance, spawn the PTY (`spawnOk` is the adapter's verdict), and on
success arm the ready timeout; on failure tear the half-created session
back down and release the index. -/
def createTerminalOp (s : MState) (loc : TerminalLocation) (spawnOk : Bool) :
    MState :=
  let id := s.nextId
  let s := { s with nextId := s.nextId + 1 }
  let index := getNextIndex s.usedIndices
  let s := { s with usedIndices := addSet s.usedIndices index }
  let inst : Instance := mkCreatedInst loc index
  let s := { s with terminals := setT s.terminals id inst }
  let s := { s with ptySpawns := s.ptySpawns ++ [id] }
  if spawnOk then
    { s with readyTimers := s.readyTimers ++ [id] }
  else
    let s := { s with terminals := eraseT s.terminals id }
    { s with usedIndices := s.usedIndices.filter (fun j => j != index) }

/-- `createPanelTerminalWithTitle(title, makeActive)` (state restoration):
reserve the index parsed from a `Terminal N` title — without checking
whether a live session already carries it — register, spawn, and on
success arm the ready timeout; on failure roll back. -/
def createTerminalWithTitleOp (s : MState) (title : String) (spawnOk : Bool) :
    MState :=
  let id := s.nextId
  let s := { s with nextId := s.nextId + 1 }
  let index? := parseTerminalTitle title
  let s :=
    match index? with
    | some i => { s with usedIndices := addSet s.usedIndices i }
    | Option.none => s
  let inst : Instance :=
    { location := TerminalLocation.panel, ready := false, dataQueue := []
      title := title, index := index? }
  let s := { s with terminals := setT s.terminals id inst }
  let s := { s with ptySpawns := s.ptySpawns ++ [id] }
  if spawnOk then
    { s with readyTimers := s.readyTimers ++ [id] }
  else
    let s := { s with terminals := eraseT s.terminals id }
    match index? with
    | some i => { s with usedIndices := s.usedIndices.filter (fun j => j != i) }
    | Option.none => s

/-- `destroyTerminal(id)`: a no-op when the id is absent from the registry
(the idempotency guard); otherwise remove the session from the registry
first, release its index, clear a pending ready timeout, kill the PTY, and
run the topology-specific surface teardown.  The exit-grace timers armed by
`handlePtyExit` are untouched: the source never stores those handles. -/
def destroyTerminal (s : MState) (id : Nat) : MState :=
  match lookupT s.terminals id with
  | Option.none => s
  | some inst =>
    let s := { s with terminals := eraseT s.terminals id }
    let s :=
      match inst.index with
      | some i => { s with usedIndices := s.usedIndices.filter (fun j => j != i) }
      | Option.none => s
    let s := { s with readyTimers := s.readyTimers.filter (fun i => i != id) }
    let s := { s with ptyKills := s.ptyKills ++ [id] }
    match inst.location with
    | TerminalLocation.editor => { s with panelDisposals := s.panelDisposals ++ [id] }
    | TerminalLocation.panel =>
      let s := { s with panelRemovals := s.panelRemovals ++ [id] }
      if (s.terminals.filter (fun p => p.2.location == TerminalLocation.panel)).isEmpty
          && s.panelVisible then
        { s with closePanelCount := s.closePanelCount + 1 }
      else s

/-- `handlePtyExit(id, exitCode)`: ignore unregistered sessions; forward
the exit notice, then arm an anonymous `EXIT_CLOSE_DELAY_MS` timer whose
handle is not retained. -/
def handlePtyExit (s : MState) (id : Nat) (exitCode : Int) : MState :=
  match lookupT s.terminals id with
  | Option.none => s
  | some _ =>
    let s := postToTerminal s id (Msg.ptyExit exitCode)
    { s with exitTimers := s.exitTimers ++ [id] }

/-- The exit-grace timer firing: `destroyTerminal(id)`.  Only an armed
timer can fire; firing consumes one armed occurrence. -/
def exitTimerFire (s : MState) (id : Nat) : MState :=
  if s.exitTimers.contains id then
    destroyTerminal { s with exitTimers := s.exitTimers.erase id } id
  else s

/-- The ready-timeout timer firing: if the session never became ready,
surface an error and destroy it.  Only an armed timer can fire. -/
def readyTimerFire (s : MState) (id : Nat) : MState :=
  if s.readyTimers.contains id then
    let s := { s with readyTimers := s.readyTimers.erase id }
    match lookupT s.terminals id with
    | Option.none => s
    | some inst => if inst.ready then s else destroyTerminal s id
  else s

/-- `handlePtyError(id, error)`: ignore unregistered sessions; expected
closes (EIO/EOF) skip the user-visible error, and both classes destroy. -/
def handlePtyError (s : MState) (id : Nat) : MState :=
  match lookupT s.terminals id with
  | Option.none => s
  | some _ => destroyTerminal s id

/-- `handleTerminalResize(id, cols, rows)`: propagate to the PTY. -/
def handleTerminalResize (s : MState) (id cols rows : Nat) : MState :=
  { s with ptyResizes := s.ptyResizes ++ [(id, cols, rows)] }

/-- `handleTerminalInput(id, data)`: forward to the PTY. -/
def handleTerminalInput (s : MState) (id : Nat) (data : String) : MState :=
  { s with ptyWrites := s.ptyWrites ++ [(id, data)] }

/-- The discrete events that drive `TerminalManager` (creation requests,
PTY callbacks, UI messages, timer firings).  An arbitrary interleaving is
an arbitrary `List MOp`. -/
inductive MOp where
  | create (loc : TerminalLocation) (spawnOk : Bool)
  | createWithTitle (title : String) (spawnOk : Bool)
  | ptyData (id : Nat) (data : String)
  | terminalReady (id cols rows : Nat) (settings : DisplaySettings)
      (theme : TerminalTheme) (config : RuntimeConfig)
  | terminalInput (id : Nat) (data : String)
  | terminalResize (id cols rows : Nat)
  | destroy (id : Nat)
  | ptyExit (id : Nat) (exitCode : Int)
  | ptyError (id : Nat)
  | exitFire (id : Nat)
  | readyFire (id : Nat)
deriving DecidableEq, Repr

/-- One event step of the manager. -/
def stepM (osc7 osc9 : String → Option String) (notifEnabled : Bool)
    (s : MState) : MOp → MState
  | MOp.create loc ok => createTerminalOp s loc ok
  | MOp.createWithTitle title ok => createTerminalWithTitleOp s title ok
  | MOp.ptyData id data => handlePtyData osc7 osc9 notifEnabled s id data
  | MOp.terminalReady id cols rows st th cf => handleTerminalReady s id cols rows st th cf
  | MOp.terminalInput id data => handleTerminalInput s id data
  | MOp.terminalResize id cols rows => handleTerminalResize s id cols rows
  | MOp.destroy id => destroyTerminal s id
  | MOp.ptyExit id code => handlePtyExit s id code
  | MOp.ptyError id => handlePtyError s id
  | MOp.exitFire id => exitTimerFire s id
  | MOp.readyFire id => readyTimerFire s id

/-- Run a sequence of events from a state. -/
def runFrom (osc7 osc9 : String → Option String) (notifEnabled : Bool)
    (s : MState) (ops : List MOp) : MState :=
  ops.foldl (stepM osc7 osc9 notifEnabled) s

/-- Run a sequence of events from the initial manager state. -/
def runM (osc7 osc9 : String → Option String) (notifEnabled : Bool)
    (ops : List MOp) : MState :=
  runFrom osc7 osc9 notifEnabled initMState ops

/-- An event is index-standard when it is not the title-restoration
creation path (whose index comes from the title, not from
`getNextIndex`). -/
def stdOp : MOp → Bool
  | MOp.createWithTitle _ _ => false
  | _ => true

/-- A scanner that finds no control sequence (used to instantiate the
scanner parameters on concrete runs). -/
def noScan : String → Option String := fun _ => Option.none

/-- The sessions' numeric indices currently in use. -/
def inUse (s : MState) : List Nat :=
  s.terminals.filterMap (fun p => p.2.index)

/-- The buffered output queue of a session, when registered. -/
def queueOf (s : MState) (id : Nat) : Option (List String) :=
  (lookupT s.terminals id).map (fun i => i.dataQueue)

/-! ## Invariants of the manager state machine -/

/-- Structural invariant of every reachable manager state:
ids are allocated below the freshness counter, registry keys are distinct,
every message ever posted names an already-allocated session, a session
that has not completed its ready handshake has never received a message on
its UI channel, buffered queues respect the cap, and every armed
ready-timeout timer belongs to a registered session. -/
structure InvM (s : MState) : Prop where
  live_lt : ∀ p ∈ s.terminals, p.1 < s.nextId
  keys_nodup : (s.terminals.map (fun p => p.1)).Nodup
  trace_lt : ∀ e ∈ s.uiTrace, e.1 < s.nextId
  notReady_noTrace : ∀ p ∈ s.terminals, p.2.ready = false → ∀ m, (p.1, m) ∉ s.uiTrace
  queue_le : ∀ p ∈ s.terminals, p.2.dataQueue.length ≤ MAX_DATA_QUEUE_SIZE
  readyTimers_live : ∀ i ∈ s.readyTimers, i ∈ s.terminals.map (fun p => p.1)

/-- Index-allocation invariant, maintained on runs that avoid the
title-restoration creation path: the reserved-index set is duplicate-free
and positive, and coincides with the set of indices carried by live
sessions, which are pairwise distinct. -/
structure InvIdx (s : MState) : Prop where
  used_nodup : s.usedIndices.Nodup
  used_pos : ∀ i ∈ s.usedIndices, 1 ≤ i
  used_iff : ∀ i, i ∈ s.usedIndices ↔ i ∈ inUse s
  inUse_nodup : (inUse s).Nodup

/-- Every event of the run is index-standard. -/
def allStd (ops : List MOp) : Bool := ops.all stdOp

/-! ## Concrete inputs used by witnesses and counterexamples -/

/-- Ambient display settings used on concrete runs. -/
def exSettings : DisplaySettings := { fontFamily := "monospace", fontSize := 15 }

/-- Ambient theme used on concrete runs. -/
def exTheme : TerminalTheme := {}

/-- Ambient runtime config used on concrete runs. -/
def exConfig : RuntimeConfig := { bellStyle := BellStyle.visual }

/-- The session instance after a successful creation followed by `n`
pre-handshake output chunks `"c"`. -/
def instAfterChunks (n : Nat) : Instance :=
  { location := TerminalLocation.panel, ready := false
    dataQueue := List.replicate (min n MAX_DATA_QUEUE_SIZE) "c"
    title := "Terminal 1", index := some 1 }

/-- The manager state after a successful creation followed by `n`
pre-handshake output chunks `"c"`. -/
def stateAfterChunks (n : Nat) : MState :=
  { terminals := [(0, instAfterChunks n)], usedIndices := [1], nextId := 1
    uiTrace := [], ptyResizes := [], ptyWrites := [], ptyKills := []
    ptySpawns := [0], readyTimers := [0], exitTimers := [], notifications := []
    panelRemovals := [], panelDisposals := [], closePanelCount := 0
    panelVisible := true }

/-- One successful creation followed by `n` output chunks `"c"`. -/
def chunkOps (n : Nat) : List MOp :=
  MOp.create TerminalLocation.panel true :: List.replicate n (MOp.ptyData 0 "c")

/-- Scenario for the ready-handshake claim: one creation, three chunks
buffered before the handshake. -/
def c2Ops : List MOp :=
  [MOp.create TerminalLocation.panel true,
   MOp.ptyData 0 "a", MOp.ptyData 0 "b", MOp.ptyData 0 "c"]

/-- The state reached by `c2Ops`. -/
def c2State : MState := runM noScan noScan false c2Ops

/-- The registered instance in `c2State`. -/
def c2Inst : Instance :=
  { location := TerminalLocation.panel, ready := false
    dataQueue := ["a", "b", "c"], title := "Terminal 1", index := some 1 }

/-- Coordinator state with one sealed two-path batch (id 0): callback 10
waits on `"/a.txt"`, callback 11 on `"/b.txt"`. -/
def c7State : CoordState :=
  debounceFire (checkFileExists 0 (checkFileExists 0 initCoordState 10 "/a.txt") 11 "/b.txt")

/-- The sealed batch content of `c7State`. -/
def c7Batch : List (String × List Nat) := [("/a.txt", [10]), ("/b.txt", [11])]

/-- The user-supplied env overlay of a partial config, read through JS
property lookup (`(partial?.env ?? {})[k]`). -/
def userEnvLookup (user? : Option UserTerminalConfig) (k : String) : Option String :=
  (((user?.map (fun p => p.env)).getD Option.none).getD (fun _ => Option.none)) k

/-- Inherited process environment used on concrete runs. -/
def exProcessEnv : EnvMap :=
  fun k =>
    if k = "PATH" then some "/original/path"
    else if k = "TERM_PROGRAM" then some "Apple_Terminal"
    else Option.none

/-- User-supplied env overrides used on concrete runs (overrides both an
inherited variable and a forced identification variable). -/
def exUserEnv : EnvMap :=
  fun k =>
    if k = "PATH" then some "/custom/path"
    else if k = "TERM_PROGRAM" then some "other"
    else Option.none

/-- A partial terminal configuration used on concrete runs. -/
def exUserConfig : UserTerminalConfig := { env := some exUserEnv }

/-- The callback resolutions appended by `batchTimeoutFire` for a timed-out
batch, in order. -/
def timeoutResolveDelta : List (String × List Nat) → List (Nat × Bool)
  | [] => []
  | e :: es => e.2.map (fun cb => (cb, false)) ++ timeoutResolveDelta es

/-- The `fileCache.set(path, false)` writes issued by `batchTimeoutFire`
for a timed-out batch, in order. -/
def timeoutCacheDelta (batch : List (String × List Nat)) : List (String × Bool) :=
  batch.map (fun e => (e.1, false))

/-- Two `checkExists` calls for the same path inside one debounce window,
followed by the debounce timer firing (which seals and sends the batch). -/
def twoChecksFlushed (now1 now2 : Nat) (s : CoordState) (cb1 cb2 : Nat)
    (p : String) : CoordState :=
  debounceFire (checkFileExists now2 (checkFileExists now1 s cb1 p) cb2 p)

/-! ## C8 — spawn environment construction (`resolveConfig`) -/

/-- C8: for every partial terminal configuration, the resolved spawn
environment inherits the process environment, forces the three
identification variables `TERM_PROGRAM=ghostty_vscode`,
`TERM_PROGRAM_VERSION=0.4.0`, `COLORTERM=truecolor` over it, and overlays
the user-supplied env last: a forced variable reads its forced value
whenever the user did not override it, an explicit user-supplied value
wins for every key (the forced ones included), and every other key reads
the inherited process value. -/
theorem resolveConfig_env_ordering (processEnv : EnvMap)
    (user? : Option UserTerminalConfig) (env : EnvMap)
    (henv : (resolveConfig processEnv user?).env = some env) :
    (∀ k v, userEnvLookup user? k = some v → env k = some v) ∧
    (userEnvLookup user? "TERM_PROGRAM" = Option.none →
      env "TERM_PROGRAM" = some "ghostty_vscode") ∧
    (userEnvLookup user? "TERM_PROGRAM_VERSION" = Option.none →
      env "TERM_PROGRAM_VERSION" = some "0.4.0") ∧
    (userEnvLookup user? "COLORTERM" = Option.none →
      env "COLORTERM" = some "truecolor") ∧
    (∀ k, userEnvLookup user? k = Option.none → k ≠ "TERM_PROGRAM" →
      k ≠ "TERM_PROGRAM_VERSION" → k ≠ "COLORTERM" → env k = processEnv k) := by
  have h : env = resolvedEnv processEnv ((user?.map (fun p => p.env)).getD Option.none) := by
    simp only [resolveConfig] at henv
    exact (Option.some.inj henv).symm
  subst h
  refine ⟨?_, ?_, ?_, ?_, ?_⟩
  · intro k v hv
    unfold userEnvLookup at hv
    unfold resolvedEnv
    rw [hv]
  · intro hv
    unfold userEnvLookup at hv
    unfold resolvedEnv
    rw [hv]
    simp
  · intro hv
    unfold userEnvLookup at hv
    unfold resolvedEnv
    rw [hv]
    simp
  · intro hv
    unfold userEnvLookup at hv
    unfold resolvedEnv
    rw [hv]
    simp
  · intro k hv h1 h2 h3
    unfold userEnvLookup at hv
    unfold resolvedEnv
    rw [hv]
    simp [h1, h2, h3]

/-- Witness for C8 at a concrete configuration: the user override of
`TERM_PROGRAM` and `PATH` wins, `COLORTERM` keeps its forced value, and an
untouched key reads the inherited environment. -/
theorem resolveConfig_env_ordering_witness :
    (resolveConfig exProcessEnv (some exUserConfig)).env =
      some (resolvedEnv exProcessEnv (some exUserEnv)) ∧
    resolvedEnv exProcessEnv (some exUserEnv) "TERM_PROGRAM" = some "other" ∧
    resolvedEnv exProcessEnv (some exUserEnv) "PATH" = some "/custom/path" ∧
    resolvedEnv exProcessEnv (some exUserEnv) "COLORTERM" = some "truecolor" ∧
    resolvedEnv exProcessEnv (some exUserEnv) "HOME" = exProcessEnv "HOME" := by
  have h := resolveConfig_env_ordering exProcessEnv (some exUserConfig)
    (resolvedEnv exProcessEnv (some exUserEnv)) rfl
  refine ⟨rfl, ?_, ?_, ?_, ?_⟩
  · exact h.1 "TERM_PROGRAM" "other" (by decide)
  · exact h.1 "PATH" "/custom/path" (by decide)
  · exact h.2.2.2.1 (by decide)
  · exact h.2.2.2.2 "HOME" (by decide) (by decide) (by decide) (by decide)

/-! ## Coordinator lemmas -/

theorem find?_filter_ne {α : Type} (l : List (Nat × α)) (bid oid : Nat)
    (h : oid ≠ bid) :
    (l.filter (fun b => b.1 != bid)).find? (fun b => b.1 == oid) =
      l.find? (fun b => b.1 == oid) := by
  induction l with
  | nil => rfl
  | cons x xs ih =>
    by_cases hx : x.1 = oid
    · have hne : (x.1 != bid) = true := by simp [bne_iff_ne, hx, h]
      have hfd : (x.1 == oid) = true := by simp [hx]
      simp [List.filter_cons, List.find?, hne, hfd]
    · have hfd : (x.1 == oid) = false := by simp [hx]
      by_cases hb : x.1 = bid
      · have hne : (x.1 != bid) = false := by simp [bne_iff_ne, hb]
        simp [List.filter_cons, List.find?, hne, hfd, ih]
      · have hne : (x.1 != bid) = true := by simp [bne_iff_ne, hb]
        simp [List.filter_cons, List.find?, hne, hfd, ih]

theorem find?_filter_self {α : Type} (l : List (Nat × α)) (bid : Nat) :
    (l.filter (fun b => b.1 != bid)).find? (fun b => b.1 == bid) = Option.none := by
  rw [List.find?_eq_none]
  intro x hx
  have := (List.mem_filter.mp hx).2
  simpa [bne_iff_ne] using this

theorem pendingFind_filter_ne (l : List (Nat × List (String × List Nat)))
    (bid oid : Nat) (h : oid ≠ bid) :
    pendingFind (l.filter (fun b => b.1 != bid)) oid = pendingFind l oid := by
  unfold pendingFind
  rw [find?_filter_ne l bid oid h]

theorem pendingFind_filter_self (l : List (Nat × List (String × List Nat)))
    (bid : Nat) :
    pendingFind (l.filter (fun b => b.1 != bid)) bid = Option.none := by
  unfold pendingFind
  rw [find?_filter_self l bid]
  rfl

theorem applyResultEntry_foldl_fields (now : Nat) (batch : List (String × List Nat)) :
    ∀ (rs : List (String × Bool)) (s0 : CoordState),
    (rs.foldl (applyResultEntry now batch) s0).pendingBatches = s0.pendingBatches ∧
    (rs.foldl (applyResultEntry now batch) s0).batchTimeouts = s0.batchTimeouts ∧
    (rs.foldl (applyResultEntry now batch) s0).sentBatches = s0.sentBatches ∧
    (rs.foldl (applyResultEntry now batch) s0).currentBatchCallbacks = s0.currentBatchCallbacks ∧
    (rs.foldl (applyResultEntry now batch) s0).currentBatchId = s0.currentBatchId ∧
    (rs.foldl (applyResultEntry now batch) s0).nextBatchId = s0.nextBatchId ∧
    (rs.foldl (applyResultEntry now batch) s0).debounceArmed = s0.debounceArmed ∧
    (rs.foldl (applyResultEntry now batch) s0).resolvedCallbacks =
      s0.resolvedCallbacks ++ resolveDelta batch rs := by
  intro rs
  induction rs with
  | nil => intro s0; simp [resolveDelta]
  | cons r rs ih =>
    intro s0
    simp only [List.foldl_cons]
    have hd := ih (applyResultEntry now batch s0 r)
    cases hb : batchFind batch r.1 with
    | none =>
      have hs : applyResultEntry now batch s0 r = s0 := by
        simp [applyResultEntry, hb]
      rw [hs]
      have hi := ih s0
      refine ⟨hi.1, hi.2.1, hi.2.2.1, hi.2.2.2.1, hi.2.2.2.2.1, hi.2.2.2.2.2.1,
        hi.2.2.2.2.2.2.1, ?_⟩
      rw [hi.2.2.2.2.2.2.2]
      simp [resolveDelta, hb]
    | some cbs =>
      have h1 : (applyResultEntry now batch s0 r).pendingBatches = s0.pendingBatches := by
        simp [applyResultEntry, hb]
      have h2 : (applyResultEntry now batch s0 r).batchTimeouts = s0.batchTimeouts := by
        simp [applyResultEntry, hb]
      have h3 : (applyResultEntry now batch s0 r).sentBatches = s0.sentBatches := by
        simp [applyResultEntry, hb]
      have h4 : (applyResultEntry now batch s0 r).currentBatchCallbacks =
          s0.currentBatchCallbacks := by
        simp [applyResultEntry, hb]
      have h5 : (applyResultEntry now batch s0 r).currentBatchId = s0.currentBatchId := by
        simp [applyResultEntry, hb]
      have h6 : (applyResultEntry now batch s0 r).nextBatchId = s0.nextBatchId := by
        simp [applyResultEntry, hb]
      have h7 : (applyResultEntry now batch s0 r).debounceArmed = s0.debounceArmed := by
        simp [applyResultEntry, hb]
      have h8 : (applyResultEntry now batch s0 r).resolvedCallbacks =
          s0.resolvedCallbacks ++ cbs.map (fun cb => (cb, r.2)) := by
        simp [applyResultEntry, hb]
      refine ⟨?_, ?_, ?_, ?_, ?_, ?_, ?_, ?_⟩
      · rw [hd.1, h1]
      · rw [hd.2.1, h2]
      · rw [hd.2.2.1, h3]
      · rw [hd.2.2.2.1, h4]
      · rw [hd.2.2.2.2.1, h5]
      · rw [hd.2.2.2.2.2.1, h6]
      · rw [hd.2.2.2.2.2.2.1, h7]
      · rw [hd.2.2.2.2.2.2.2, h8]
        simp [resolveDelta, hb]

theorem applyTimeoutEntry_foldl_fields (now : Nat) :
    ∀ (batch : List (String × List Nat)) (s0 : CoordState),
    (batch.foldl (applyTimeoutEntry now) s0).pendingBatches = s0.pendingBatches ∧
    (batch.foldl (applyTimeoutEntry now) s0).batchTimeouts = s0.batchTimeouts ∧
    (batch.foldl (applyTimeoutEntry now) s0).sentBatches = s0.sentBatches ∧
    (batch.foldl (applyTimeoutEntry now) s0).currentBatchCallbacks = s0.currentBatchCallbacks ∧
    (batch.foldl (applyTimeoutEntry now) s0).resolvedCallbacks =
      s0.resolvedCallbacks ++ timeoutResolveDelta batch ∧
    (batch.foldl (applyTimeoutEntry now) s0).cacheWrites =
      s0.cacheWrites ++ timeoutCacheDelta batch := by
  intro batch
  induction batch with
  | nil => intro s0; simp [timeoutResolveDelta, timeoutCacheDelta]
  | cons e es ih =>
    intro s0
    simp only [List.foldl_cons]
    have hd := ih (applyTimeoutEntry now s0 e)
    have h1 : (applyTimeoutEntry now s0 e).pendingBatches = s0.pendingBatches := by
      simp [applyTimeoutEntry]
    have h2 : (applyTimeoutEntry now s0 e).batchTimeouts = s0.batchTimeouts := by
      simp [applyTimeoutEntry]
    have h3 : (applyTimeoutEntry now s0 e).sentBatches = s0.sentBatches := by
      simp [applyTimeoutEntry]
    have h4 : (applyTimeoutEntry now s0 e).currentBatchCallbacks =
        s0.currentBatchCallbacks := by
      simp [applyTimeoutEntry]
    have h5 : (applyTimeoutEntry now s0 e).resolvedCallbacks =
        s0.resolvedCallbacks ++ e.2.map (fun cb => (cb, false)) := by
      simp [applyTimeoutEntry]
    have h6 : (applyTimeoutEntry now s0 e).cacheWrites =
        s0.cacheWrites ++ [(e.1, false)] := by
      simp [applyTimeoutEntry]
    refine ⟨?_, ?_, ?_, ?_, ?_, ?_⟩
    · rw [hd.1, h1]
    · rw [hd.2.1, h2]
    · rw [hd.2.2.1, h3]
    · rw [hd.2.2.2.1, h4]
    · rw [hd.2.2.2.2.1, h5]
      simp [timeoutResolveDelta]
    · rw [hd.2.2.2.2.2, h6]
      simp [timeoutCacheDelta]

theorem mem_timeoutResolveDelta (batch : List (String × List Nat))
    (e : String × List Nat) (cb : Nat) (hcb : cb ∈ e.2) :
    e ∈ batch → (cb, false) ∈ timeoutResolveDelta batch := by
  induction batch with
  | nil => intro he; cases he
  | cons f fs ih =>
    intro he
    unfold timeoutResolveDelta
    cases he with
    | head => exact List.mem_append_left _ (List.mem_map.mpr ⟨cb, hcb, rfl⟩)
    | tail _ h => exact List.mem_append_right _ (ih h)

theorem not_mem_resolveDelta (batch : List (String × List Nat)) (cb : Nat)
    (p : String) (results : List (String × Bool))
    (hunique : ∀ q cbs2, batchFind batch q = some cbs2 → q ≠ p → cb ∉ cbs2) :
    (∀ r ∈ results, r.1 ≠ p) → ∀ bv, (cb, bv) ∉ resolveDelta batch results := by
  induction results with
  | nil => intro _ bv h; cases h
  | cons r rs ih =>
    intro homit bv h
    unfold resolveDelta at h
    rcases List.mem_append.mp h with h | h
    · cases hb : batchFind batch r.1 with
      | none => rw [hb] at h; cases h
      | some cbs2 =>
        rw [hb] at h
        obtain ⟨c, hc, hceq⟩ := List.mem_map.mp h
        have : c = cb := congrArg Prod.fst hceq
        subst this
        exact hunique r.1 cbs2 hb (homit r (List.mem_cons_self r rs)) hc
    · exact ih (fun q hq => homit q (List.mem_cons_of_mem r hq)) bv h

theorem pendingFind_append_of_none (l1 l2 : List (Nat × List (String × List Nat)))
    (bid : Nat) :
    pendingFind l1 bid = Option.none →
      pendingFind (l1 ++ l2) bid = pendingFind l2 bid := by
  induction l1 with
  | nil => intro _; rfl
  | cons x xs ih =>
    intro h
    unfold pendingFind at h ⊢
    by_cases hx : x.1 = bid
    · simp [List.find?, hx] at h
    · have hfd : (x.1 == bid) = false := by simp [hx]
      simp only [List.cons_append, List.find?, hfd]
      simp only [List.find?, hfd] at h
      exact ih h

/-! ## C7 — per-batch timeout resolves the whole batch to `false` -/

/-- C7: when the 2000 ms timeout of a still-pending batch fires, every
still-pending callback of that specific batch is resolved with `false` (in
batch order) and a `false` cache write is issued for each of its paths;
every other in-flight batch is untouched; and a reply arriving for the
same batch id afterwards is a complete no-op, because the batch entry has
already been removed. -/
theorem batch_timeout_resolves_false (now now2 : Nat) (s : CoordState)
    (batchId : Nat) (batch : List (String × List Nat))
    (harmed : s.batchTimeouts.contains batchId = true)
    (hb : pendingFind s.pendingBatches batchId = some batch) :
    (batchTimeoutFire now s batchId).resolvedCallbacks =
      s.resolvedCallbacks ++ timeoutResolveDelta batch ∧
    (∀ e ∈ batch, ∀ cb ∈ e.2, (cb, false) ∈ timeoutResolveDelta batch) ∧
    (batchTimeoutFire now s batchId).cacheWrites =
      s.cacheWrites ++ timeoutCacheDelta batch ∧
    (∀ e ∈ batch, (e.1, false) ∈ timeoutCacheDelta batch) ∧
    (batchTimeoutFire now s batchId).pendingBatches =
      s.pendingBatches.filter (fun bb => bb.1 != batchId) ∧
    (∀ oid, oid ≠ batchId →
      pendingFind (batchTimeoutFire now s batchId).pendingBatches oid =
        pendingFind s.pendingBatches oid) ∧
    (∀ results,
      handleBatchFileExistsResult now2 (batchTimeoutFire now s batchId) batchId results =
        batchTimeoutFire now s batchId) := by
  have hcore : batchTimeoutFire now s batchId =
      batch.foldl (applyTimeoutEntry now)
        { s with batchTimeouts := s.batchTimeouts.erase batchId
                 pendingBatches := s.pendingBatches.filter (fun bb => bb.1 != batchId) } := by
    unfold batchTimeoutFire
    rw [harmed]
    simp only [if_true]
    have : pendingFind
        ({ s with batchTimeouts := s.batchTimeouts.erase batchId } : CoordState).pendingBatches
        batchId = some batch := hb
    rw [this]
  have hf := applyTimeoutEntry_foldl_fields now batch
    { s with batchTimeouts := s.batchTimeouts.erase batchId
             pendingBatches := s.pendingBatches.filter (fun bb => bb.1 != batchId) }
  refine ⟨?_, ?_, ?_, ?_, ?_, ?_, ?_⟩
  · rw [hcore, hf.2.2.2.2.1]
  · intro e he cb hcb; exact mem_timeoutResolveDelta batch e cb hcb he
  · rw [hcore, hf.2.2.2.2.2]
  · intro e he; exact List.mem_map.mpr ⟨e, he, rfl⟩
  · rw [hcore, hf.1]
  · intro oid hoid
    rw [hcore, hf.1]
    exact pendingFind_filter_ne s.pendingBatches batchId oid hoid
  · intro results
    unfold handleBatchFileExistsResult
    have hnone : pendingFind (batchTimeoutFire now s batchId).pendingBatches batchId =
        Option.none := by
      rw [hcore, hf.1]
      exact pendingFind_filter_self s.pendingBatches batchId
    rw [hnone]

/-- Witness for C7 on the two-path batch of `c7State` (callbacks 10
and 11, paths `/a.txt` and `/b.txt`): the timeout resolves both with
`false`, writes `false` for both paths, and a late reply claiming
`/a.txt` exists changes nothing. -/
theorem batch_timeout_resolves_false_witness :
    c7State.batchTimeouts.contains 0 = true ∧
    pendingFind c7State.pendingBatches 0 = some c7Batch ∧
    (batchTimeoutFire 2000 c7State 0).resolvedCallbacks =
      c7State.resolvedCallbacks ++ timeoutResolveDelta c7Batch ∧
    (handleBatchFileExistsResult 2500 (batchTimeoutFire 2000 c7State 0) 0
      [("/a.txt", true)] = batchTimeoutFire 2000 c7State 0) := by
  have h := batch_timeout_resolves_false 2000 2500 c7State 0 c7Batch
    (by decide) (by decide)
  exact ⟨by decide, by decide, h.1, h.2.2.2.2.2.2 [("/a.txt", true)]⟩

/-! ## C10 — a reply omitting a pending path strands its callers -/

/-- C10: if a correlated reply omits one of the batch's pending paths, the
callbacks registered for the omitted path are never invoked: the handler
appends exactly the resolutions for the paths present in the reply (the
omitted path's callbacks are not among them), yet removes the whole batch
entry, so the batch's later-firing timeout finds no batch and does nothing
beyond disarming itself — the omitted callers' promises stay pending
forever. -/
theorem omitted_path_stays_pending (now now2 : Nat) (s : CoordState)
    (batchId : Nat) (batch : List (String × List Nat)) (p : String)
    (cbs : List Nat) (cb : Nat) (results : List (String × Bool))
    (hb : pendingFind s.pendingBatches batchId = some batch)
    (hp : batchFind batch p = some cbs)
    (hcb : cb ∈ cbs)
    (homit : ∀ r ∈ results, r.1 ≠ p)
    (hunique : ∀ q cbs2, batchFind batch q = some cbs2 → q ≠ p → cb ∉ cbs2) :
    (handleBatchFileExistsResult now s batchId results).resolvedCallbacks =
      s.resolvedCallbacks ++ resolveDelta batch results ∧
    (∀ bv, (cb, bv) ∉ resolveDelta batch results) ∧
    pendingFind (handleBatchFileExistsResult now s batchId results).pendingBatches
      batchId = Option.none ∧
    batchTimeoutFire now2 (handleBatchFileExistsResult now s batchId results) batchId =
      { handleBatchFileExistsResult now s batchId results with
        batchTimeouts :=
          (handleBatchFileExistsResult now s batchId results).batchTimeouts.erase batchId } := by
  have hcore : handleBatchFileExistsResult now s batchId results =
      results.foldl (applyResultEntry now batch)
        { s with pendingBatches := s.pendingBatches.filter (fun bb => bb.1 != batchId) } := by
    unfold handleBatchFileExistsResult
    rw [hb]
  have hf := applyResultEntry_foldl_fields now batch results
    { s with pendingBatches := s.pendingBatches.filter (fun bb => bb.1 != batchId) }
  have hnone : pendingFind (handleBatchFileExistsResult now s batchId results).pendingBatches
      batchId = Option.none := by
    rw [hcore, hf.1]
    exact pendingFind_filter_self s.pendingBatches batchId
  refine ⟨?_, ?_, hnone, ?_⟩
  · rw [hcore, hf.2.2.2.2.2.2.2]
  · exact not_mem_resolveDelta batch cb p results hunique homit
  · by_cases hct : (handleBatchFileExistsResult now s batchId results).batchTimeouts.contains
        batchId = true
    · unfold batchTimeoutFire
      rw [hct]
      simp only [if_true]
      have : pendingFind
          ({ handleBatchFileExistsResult now s batchId results with
             batchTimeouts :=
               (handleBatchFileExistsResult now s batchId results).batchTimeouts.erase batchId } :
            CoordState).pendingBatches batchId = Option.none := hnone
      rw [this]
    · have hct' : (handleBatchFileExistsResult now s batchId results).batchTimeouts.contains
          batchId = false := by
        cases h : (handleBatchFileExistsResult now s batchId results).batchTimeouts.contains
            batchId
        · rfl
        · exact absurd h hct
      have hmem : batchId ∉ (handleBatchFileExistsResult now s batchId results).batchTimeouts := by
        intro hm
        have : (handleBatchFileExistsResult now s batchId results).batchTimeouts.contains
            batchId = true := List.elem_eq_true_of_mem hm
        rw [this] at hct'
        cases hct'
      unfold batchTimeoutFire
      rw [hct']
      simp only [Bool.false_eq_true, if_false]
      rw [List.erase_of_not_mem hmem]

/-- Witness for C10 on the two-path batch of `c7State`: the reply answers
only `/b.txt`; callback 10 (waiting on the omitted `/a.txt`) is absent
from the appended resolutions and the batch entry is gone. -/
theorem omitted_path_stays_pending_witness :
    pendingFind c7State.pendingBatches 0 = some c7Batch ∧
    (handleBatchFileExistsResult 100 c7State 0 [("/b.txt", true)]).resolvedCallbacks =
      c7State.resolvedCallbacks ++ resolveDelta c7Batch [("/b.txt", true)] ∧
    (∀ bv, (10, bv) ∉ resolveDelta c7Batch [("/b.txt", true)]) ∧
    pendingFind
      (handleBatchFileExistsResult 100 c7State 0 [("/b.txt", true)]).pendingBatches 0 =
      Option.none := by
  have hunique : ∀ q cbs2, batchFind c7Batch q = some cbs2 → q ≠ "/a.txt" → 10 ∉ cbs2 := by
    intro q cbs2 hq hne
    by_cases h2 : q = "/b.txt"
    · subst h2
      have hv : batchFind c7Batch "/b.txt" = some [11] := by decide
      rw [hv] at hq
      have : cbs2 = [11] := (Option.some.inj hq).symm
      subst this
      decide
    · have e1 : ("/a.txt" == q) = false := beq_eq_false_iff_ne.mpr (Ne.symm hne)
      have e2 : ("/b.txt" == q) = false := beq_eq_false_iff_ne.mpr (Ne.symm h2)
      have hnone : batchFind c7Batch q = Option.none := by
        unfold batchFind c7Batch
        simp [List.find?, e1, e2]
      rw [hnone] at hq
      cases hq
  have h := omitted_path_stays_pending 100 2000 c7State 0 c7Batch "/a.txt" [10] 10
    [("/b.txt", true)] (by decide) (by decide) (by decide) (by decide) hunique
  exact ⟨by decide, h.1, h.2.1, h.2.2.1⟩


/-! ## C6 — duplicate path in one debounce window -/

/-- C6: two `checkExists` calls for the same path inside one debounce
window (both cache misses, starting from a fresh window) register both
resolvers under a single path entry; sealing the batch posts exactly one
outbound entry for the path; neither caller is resolved before the reply;
and the correlated reply resolves both original callers with the replied
existence result, in registration order. -/
theorem duplicate_path_single_entry (now1 now2 now3 : Nat) (s : CoordState)
    (cb1 cb2 : Nat) (p : String) (b : Bool)
    (hmiss : cacheFind s.fileCache p = Option.none)
    (hempty : s.currentBatchCallbacks = [])
    (hfresh : pendingFind s.pendingBatches s.currentBatchId = Option.none) :
    (twoChecksFlushed now1 now2 s cb1 cb2 p).sentBatches =
      s.sentBatches ++ [(s.currentBatchId, [p])] ∧
    pendingFind (twoChecksFlushed now1 now2 s cb1 cb2 p).pendingBatches
      s.currentBatchId = some [(p, [cb1, cb2])] ∧
    (twoChecksFlushed now1 now2 s cb1 cb2 p).resolvedCallbacks =
      s.resolvedCallbacks ∧
    (handleBatchFileExistsResult now3 (twoChecksFlushed now1 now2 s cb1 cb2 p)
        s.currentBatchId [(p, b)]).resolvedCallbacks =
      s.resolvedCallbacks ++ [(cb1, b), (cb2, b)] := by
  have h1 : checkFileExists now1 s cb1 p =
      { s with currentBatchCallbacks := [(p, [cb1])], debounceArmed := true } := by
    simp [checkFileExists, fileCacheGet, hmiss, hempty, batchFind]
  have h2 : checkFileExists now2
      ({ s with currentBatchCallbacks := [(p, [cb1])], debounceArmed := true } : CoordState)
      cb2 p =
      { s with currentBatchCallbacks := [(p, [cb1, cb2])], debounceArmed := true } := by
    simp [checkFileExists, fileCacheGet, hmiss, batchFind, List.find?]
  have h3 : twoChecksFlushed now1 now2 s cb1 cb2 p =
      { s with pendingBatches :=
                 s.pendingBatches ++ [(s.currentBatchId, [(p, [cb1, cb2])])]
               currentBatchCallbacks := []
               currentBatchId := s.nextBatchId
               nextBatchId := s.nextBatchId + 1
               debounceArmed := false
               sentBatches := s.sentBatches ++ [(s.currentBatchId, [p])]
               batchTimeouts := s.batchTimeouts ++ [s.currentBatchId] } := by
    unfold twoChecksFlushed
    rw [h1, h2]
    simp [debounceFire, flushBatchFileChecks]
  have hpf : pendingFind (twoChecksFlushed now1 now2 s cb1 cb2 p).pendingBatches
      s.currentBatchId = some [(p, [cb1, cb2])] := by
    rw [h3]
    show pendingFind (s.pendingBatches ++ [(s.currentBatchId, [(p, [cb1, cb2])])])
      s.currentBatchId = some [(p, [cb1, cb2])]
    rw [pendingFind_append_of_none s.pendingBatches _ s.currentBatchId hfresh]
    simp [pendingFind, List.find?]
  refine ⟨?_, hpf, ?_, ?_⟩
  · rw [h3]
  · rw [h3]
  · unfold handleBatchFileExistsResult
    rw [hpf]
    have : batchFind [(p, [cb1, cb2])] p = some [cb1, cb2] := by
      simp [batchFind, List.find?]
    simp [applyResultEntry, this, h3]

/-- Witness for C6 from the initial webview state: callbacks 10 and 11
request `/a.txt` in one window; the sealed batch 0 carries one path entry,
and the reply `exists = true` resolves both callers to `true`. -/
theorem duplicate_path_single_entry_witness :
    cacheFind initCoordState.fileCache "/a.txt" = Option.none ∧
    (twoChecksFlushed 0 10 initCoordState 10 11 "/a.txt").sentBatches = [(0, ["/a.txt"])] ∧
    (handleBatchFileExistsResult 100 (twoChecksFlushed 0 10 initCoordState 10 11 "/a.txt")
        0 [("/a.txt", true)]).resolvedCallbacks = [(10, true), (11, true)] := by
  have h := duplicate_path_single_entry 0 10 100 initCoordState 10 11 "/a.txt" true
    (by decide) (by decide) (by decide)
  exact ⟨by decide, h.1, h.2.2.2⟩

/-! ## Registry map lemmas -/

theorem lookupT_updateInst (m : List (Nat × Instance)) (id i : Nat)
    (f : Instance → Instance) :
    lookupT (updateInst m id f) i =
      if i = id then (lookupT m i).map f else lookupT m i := by
  unfold lookupT updateInst
  rw [List.find?_map]
  have hpred : ((fun p : Nat × Instance => p.1 == i) ∘
      (fun p : Nat × Instance => if p.1 = id then (p.1, f p.2) else p)) =
      fun p : Nat × Instance => p.1 == i := by
    funext p
    by_cases hp : p.1 = id <;> simp [hp]
  rw [hpred]
  cases hfd : m.find? (fun p => p.1 == i) with
  | none => by_cases hii : i = id <;> simp [hii]
  | some x =>
    have hx := List.find?_some hfd
    have hx' : x.1 = i := by simpa using hx
    by_cases hii : i = id
    · subst hii
      simp [hx']
    · simp [hx', hii]

theorem lookupT_updateInst_self (m : List (Nat × Instance)) (id : Nat)
    (f : Instance → Instance) :
    lookupT (updateInst m id f) id = (lookupT m id).map f := by
  rw [lookupT_updateInst]
  simp

theorem lookupT_updateInst_ne (m : List (Nat × Instance)) (id i : Nat)
    (f : Instance → Instance) (h : i ≠ id) :
    lookupT (updateInst m id f) i = lookupT m i := by
  rw [lookupT_updateInst]
  simp [h]

theorem lookupT_eraseT_self (m : List (Nat × Instance)) (id : Nat) :
    lookupT (eraseT m id) id = Option.none := by
  unfold lookupT eraseT
  rw [find?_filter_self m id]
  rfl

theorem lookupT_eraseT_ne (m : List (Nat × Instance)) (id i : Nat) (h : i ≠ id) :
    lookupT (eraseT m id) i = lookupT m i := by
  unfold lookupT eraseT
  rw [find?_filter_ne m id i h]

theorem setT_of_none (m : List (Nat × Instance)) (id : Nat) (inst : Instance)
    (h : lookupT m id = Option.none) : setT m id inst = m ++ [(id, inst)] := by
  unfold setT
  have hf : m.find? (fun p => p.1 == id) = Option.none := by
    unfold lookupT at h
    exact Option.map_eq_none.mp h
  rw [hf]
  rfl

theorem lookupT_append_of_none (l1 l2 : List (Nat × Instance)) (id : Nat)
    (h : lookupT l1 id = Option.none) :
    lookupT (l1 ++ l2) id = lookupT l2 id := by
  unfold lookupT at h ⊢
  rw [List.find?_append, Option.map_eq_none.mp h]
  rfl

theorem updateInst_keys (m : List (Nat × Instance)) (id : Nat)
    (f : Instance → Instance) :
    (updateInst m id f).map (fun p => p.1) = m.map (fun p => p.1) := by
  unfold updateInst
  rw [List.map_map]
  apply List.map_congr_left
  intro p _
  by_cases hx : p.1 = id <;> simp [hx]

/-! ## C4 — destroy is idempotent -/

/-- C4: calling `destroyTerminal` twice in a row with the same id has
effect only on the first call.  The registry entry is removed first, so
the second call observes the id's absence and returns the state unchanged:
in particular no second `kill` is traced and the index set is untouched.
Totality of the model mirrors that the source path cannot throw. -/
theorem destroyTerminal_idempotent (s : MState) (id : Nat) :
    destroyTerminal (destroyTerminal s id) id = destroyTerminal s id ∧
    lookupT (destroyTerminal s id).terminals id = Option.none ∧
    (destroyTerminal (destroyTerminal s id) id).ptyKills =
      (destroyTerminal s id).ptyKills ∧
    (destroyTerminal (destroyTerminal s id) id).usedIndices =
      (destroyTerminal s id).usedIndices := by
  have hnoop : ∀ t : MState, lookupT t.terminals id = Option.none →
      destroyTerminal t id = t := by
    intro t ht
    unfold destroyTerminal
    rw [ht]
  have hlook : lookupT (destroyTerminal s id).terminals id = Option.none := by
    cases h : lookupT s.terminals id with
    | none =>
      rw [hnoop s h]
      exact h
    | some inst =>
      have hterm : (destroyTerminal s id).terminals = eraseT s.terminals id := by
        unfold destroyTerminal
        rw [h]
        cases hidx : inst.index <;> cases hloc : inst.location <;>
          simp [hidx, hloc] <;> split <;> rfl
      rw [hterm]
      exact lookupT_eraseT_self s.terminals id
  have heq := hnoop (destroyTerminal s id) hlook
  exact ⟨heq, hlook, by rw [heq], by rw [heq]⟩

/-! ## `postToTerminal` lemmas -/

theorem postToTerminal_fields (s : MState) (id : Nat) (msg : Msg) :
    (postToTerminal s id msg).terminals = s.terminals ∧
    (postToTerminal s id msg).readyTimers = s.readyTimers ∧
    (postToTerminal s id msg).exitTimers = s.exitTimers ∧
    (postToTerminal s id msg).usedIndices = s.usedIndices ∧
    (postToTerminal s id msg).nextId = s.nextId ∧
    (postToTerminal s id msg).ptyResizes = s.ptyResizes ∧
    (postToTerminal s id msg).ptyKills = s.ptyKills := by
  unfold postToTerminal
  cases h : lookupT s.terminals id with
  | none => exact ⟨rfl, rfl, rfl, rfl, rfl, rfl, rfl⟩
  | some inst => by_cases hr : inst.ready <;> simp [hr]

theorem postToTerminal_ready (s : MState) (id : Nat) (msg : Msg) (inst : Instance)
    (h : lookupT s.terminals id = some inst) (hr : inst.ready = true) :
    postToTerminal s id msg = { s with uiTrace := s.uiTrace ++ [(id, msg)] } := by
  unfold postToTerminal
  rw [h]
  simp [hr]

theorem postToTerminal_not_ready (s : MState) (id : Nat) (msg : Msg) (inst : Instance)
    (h : lookupT s.terminals id = some inst) (hr : inst.ready = false) :
    postToTerminal s id msg = s := by
  unfold postToTerminal
  rw [h]
  simp [hr]

theorem postToTerminal_absent (s : MState) (id : Nat) (msg : Msg)
    (h : lookupT s.terminals id = Option.none) :
    postToTerminal s id msg = s := by
  unfold postToTerminal
  rw [h]

theorem flush_foldl (l : List String) :
    ∀ (s : MState) (id : Nat) (inst : Instance),
      lookupT s.terminals id = some inst → inst.ready = true →
      l.foldl (fun acc d => postToTerminal acc id (Msg.ptyData d)) s =
        { s with uiTrace := s.uiTrace ++ l.map (fun d => (id, Msg.ptyData d)) } := by
  induction l with
  | nil => intro s id inst h hr; simp
  | cons d ds ih =>
    intro s id inst h hr
    simp only [List.foldl_cons]
    rw [postToTerminal_ready s id (Msg.ptyData d) inst h hr]
    rw [ih { s with uiTrace := s.uiTrace ++ [(id, Msg.ptyData d)] } id inst h hr]
    simp

theorem postSeq (s : MState) (id : Nat) (inst : Instance)
    (h : lookupT s.terminals id = some inst) (hr : inst.ready = true)
    (m1 m2 m3 : Msg) (l : List String) :
    l.foldl (fun acc d => postToTerminal acc id (Msg.ptyData d))
      (postToTerminal (postToTerminal (postToTerminal s id m1) id m2) id m3) =
      { s with uiTrace := s.uiTrace ++
          (id, m1) :: (id, m2) :: (id, m3) :: l.map (fun d => (id, Msg.ptyData d)) } := by
  rw [postToTerminal_ready s id m1 inst h hr]
  rw [postToTerminal_ready { s with uiTrace := s.uiTrace ++ [(id, m1)] } id m2 inst h hr]
  rw [postToTerminal_ready
    { s with uiTrace := (s.uiTrace ++ [(id, m1)]) ++ [(id, m2)] } id m3 inst h hr]
  rw [flush_foldl l
    { s with uiTrace := ((s.uiTrace ++ [(id, m1)]) ++ [(id, m2)]) ++ [(id, m3)] }
    id inst h hr]
  simp

theorem handleTerminalReady_run (s : MState) (id cols rows : Nat)
    (settings : DisplaySettings) (theme : TerminalTheme) (config : RuntimeConfig)
    (inst : Instance) (h : lookupT s.terminals id = some inst) :
    handleTerminalReady s id cols rows settings theme config =
      { s with
        readyTimers := s.readyTimers.filter (fun i => i != id)
        ptyResizes := s.ptyResizes ++ [(id, cols, rows)]
        terminals := updateInst
          (updateInst s.terminals id (fun j => { j with ready := true })) id
          (fun j => { j with dataQueue := [] })
        uiTrace := s.uiTrace ++
          (id, Msg.updateSettings settings) :: (id, Msg.updateTheme theme) ::
          (id, Msg.updateConfig config) ::
          inst.dataQueue.map (fun d => (id, Msg.ptyData d)) } := by
  have hl : lookupT (updateInst s.terminals id
      (fun j => { j with ready := true })) id = some { inst with ready := true } := by
    rw [lookupT_updateInst_self, h]
    rfl
  unfold handleTerminalReady
  rw [h]
  dsimp only
  rw [postSeq
    { s with
      readyTimers := s.readyTimers.filter (fun i => i != id)
      ptyResizes := s.ptyResizes ++ [(id, cols, rows)]
      terminals := updateInst s.terminals id (fun j => { j with ready := true }) }
    id { inst with ready := true } hl rfl (Msg.updateSettings settings)
    (Msg.updateTheme theme) (Msg.updateConfig config) inst.dataQueue]

/-! ## C2 — the ready handshake -/

/-- C2: processing `terminal-ready(id, cols, rows)` for a registered
session cancels the ready timeout, resizes the PTY to exactly the reported
dimensions, and delivers on that session's UI channel, in this order:
`update-settings`, `update-theme`, `update-config`, then every buffered
chunk in original arrival order with zero duplication and zero reordering;
afterwards the session is ready and its buffer queue is empty.  Every
other session is untouched. -/
theorem handleTerminalReady_spec (s : MState) (id cols rows : Nat)
    (settings : DisplaySettings) (theme : TerminalTheme) (config : RuntimeConfig)
    (inst : Instance) (h : lookupT s.terminals id = some inst) :
    (handleTerminalReady s id cols rows settings theme config).readyTimers =
      s.readyTimers.filter (fun i => i != id) ∧
    (handleTerminalReady s id cols rows settings theme config).ptyResizes =
      s.ptyResizes ++ [(id, cols, rows)] ∧
    (handleTerminalReady s id cols rows settings theme config).uiTrace =
      s.uiTrace ++ (id, Msg.updateSettings settings) :: (id, Msg.updateTheme theme) ::
        (id, Msg.updateConfig config) ::
        inst.dataQueue.map (fun d => (id, Msg.ptyData d)) ∧
    lookupT (handleTerminalReady s id cols rows settings theme config).terminals id =
      some { inst with ready := true, dataQueue := [] } ∧
    (∀ i, i ≠ id →
      lookupT (handleTerminalReady s id cols rows settings theme config).terminals i =
        lookupT s.terminals i) := by
  have hrun := handleTerminalReady_run s id cols rows settings theme config inst h
  refine ⟨by rw [hrun], by rw [hrun], by rw [hrun], ?_, ?_⟩
  · rw [hrun]
    show lookupT (updateInst (updateInst s.terminals id
      (fun j => { j with ready := true })) id (fun j => { j with dataQueue := [] })) id =
      some { inst with ready := true, dataQueue := [] }
    rw [lookupT_updateInst_self, lookupT_updateInst_self, h]
    rfl
  · intro i hi
    rw [hrun]
    show lookupT (updateInst (updateInst s.terminals id
      (fun j => { j with ready := true })) id (fun j => { j with dataQueue := [] })) i =
      lookupT s.terminals i
    rw [lookupT_updateInst_ne _ _ _ _ hi, lookupT_updateInst_ne _ _ _ _ hi]

/-- Witness for C2: a session created with the default 80×24, fed three
chunks before the handshake, completes the handshake at 100×30 — the PTY
is resized to 100×30 and the UI channel receives settings, theme, config,
then `"a"`, `"b"`, `"c"` in order; the queue ends empty. -/
theorem handleTerminalReady_spec_witness :
    lookupT c2State.terminals 0 = some c2Inst ∧
    (handleTerminalReady c2State 0 100 30 exSettings exTheme exConfig).ptyResizes =
      c2State.ptyResizes ++ [(0, 100, 30)] ∧
    (handleTerminalReady c2State 0 100 30 exSettings exTheme exConfig).uiTrace =
      c2State.uiTrace ++ (0, Msg.updateSettings exSettings) ::
        (0, Msg.updateTheme exTheme) :: (0, Msg.updateConfig exConfig) ::
        c2Inst.dataQueue.map (fun d => (0, Msg.ptyData d)) ∧
    lookupT (handleTerminalReady c2State 0 100 30 exSettings exTheme exConfig).terminals 0 =
      some { c2Inst with ready := true, dataQueue := [] } := by
  have h := handleTerminalReady_spec c2State 0 100 30 exSettings exTheme exConfig c2Inst
    (by decide)
  exact ⟨by decide, h.2.1, h.2.2.1, h.2.2.2.1⟩

/-! ## Further registry lemmas -/

theorem lookupT_eq_none_of_lt (m : List (Nat × Instance)) (n : Nat)
    (h : ∀ p ∈ m, p.1 < n) : lookupT m n = Option.none := by
  unfold lookupT
  rw [List.find?_eq_none.mpr]
  · rfl
  · intro p hp hbeq
    have : p.1 = n := by simpa using hbeq
    exact absurd this (Nat.ne_of_lt (h p hp))

theorem lookupT_of_mem (m : List (Nat × Instance))
    (hnd : (m.map (fun p => p.1)).Nodup) (p : Nat × Instance) :
    p ∈ m → lookupT m p.1 = some p.2 := by
  induction m with
  | nil => intro hp; cases hp
  | cons x xs ih =>
    intro hp
    rw [List.map_cons, List.nodup_cons] at hnd
    cases hp with
    | head => unfold lookupT; simp [List.find?]
    | tail _ hmem =>
      have hne : x.1 ≠ p.1 := by
        intro hcontra
        exact hnd.1 (hcontra ▸ List.mem_map.mpr ⟨p, hmem, rfl⟩)
      have hb : (x.1 == p.1) = false := by simp [hne]
      unfold lookupT
      simp only [List.find?, hb]
      exact ih hnd.2 hmem

theorem mem_updateInst (m : List (Nat × Instance)) (id : Nat)
    (f : Instance → Instance) (q : Nat × Instance) :
    q ∈ updateInst m id f →
      ∃ p, p ∈ m ∧ q.1 = p.1 ∧
        ((p.1 ≠ id ∧ q.2 = p.2) ∨ (p.1 = id ∧ q.2 = f p.2)) := by
  intro hq
  obtain ⟨p, hp, hpe⟩ := List.mem_map.mp hq
  by_cases h : p.1 = id
  · rw [if_pos h] at hpe
    exact ⟨p, hp, by rw [← hpe], Or.inr ⟨h, by rw [← hpe]⟩⟩
  · rw [if_neg h] at hpe
    exact ⟨p, hp, by rw [← hpe], Or.inl ⟨h, by rw [← hpe]⟩⟩

theorem mem_eraseT (m : List (Nat × Instance)) (id : Nat) (p : Nat × Instance)
    (hp : p ∈ eraseT m id) : p ∈ m ∧ p.1 ≠ id := by
  unfold eraseT at hp
  have h := List.mem_filter.mp hp
  exact ⟨h.1, by simpa [bne_iff_ne] using h.2⟩

theorem mem_eraseT_of_mem (m : List (Nat × Instance)) (id : Nat)
    (p : Nat × Instance) (hp : p ∈ m) (hne : p.1 ≠ id) : p ∈ eraseT m id := by
  unfold eraseT
  exact List.mem_filter.mpr ⟨hp, by simpa [bne_iff_ne] using hne⟩

theorem eraseT_keys_sublist (m : List (Nat × Instance)) (id : Nat) :
    ((eraseT m id).map (fun p => p.1)).Sublist (m.map (fun p => p.1)) :=
  List.Sublist.map _ (List.filter_sublist m)

theorem destroyTerminal_absent (s : MState) (id : Nat)
    (h : lookupT s.terminals id = Option.none) : destroyTerminal s id = s := by
  unfold destroyTerminal
  rw [h]

theorem destroyTerminal_fields (s : MState) (id : Nat) (inst : Instance)
    (h : lookupT s.terminals id = some inst) :
    (destroyTerminal s id).terminals = eraseT s.terminals id ∧
    (destroyTerminal s id).readyTimers = s.readyTimers.filter (fun i => i != id) ∧
    (destroyTerminal s id).uiTrace = s.uiTrace ∧
    (destroyTerminal s id).nextId = s.nextId ∧
    (destroyTerminal s id).exitTimers = s.exitTimers ∧
    (destroyTerminal s id).ptyKills = s.ptyKills ++ [id] ∧
    (destroyTerminal s id).usedIndices =
      (match inst.index with
       | some i => s.usedIndices.filter (fun j => j != i)
       | Option.none => s.usedIndices) := by
  unfold destroyTerminal
  rw [h]
  cases hidx : inst.index <;> cases hloc : inst.location <;>
    refine ⟨?_, ?_, ?_, ?_, ?_, ?_, ?_⟩ <;> simp [hidx, hloc] <;> split <;> rfl

/-! ## Run characterizations of the creation events -/

theorem createTerminalOp_run (s : MState) (loc : TerminalLocation) :
    createTerminalOp s loc true =
      { s with nextId := s.nextId + 1
               usedIndices := addSet s.usedIndices (getNextIndex s.usedIndices)
               terminals := setT s.terminals s.nextId
                 (mkCreatedInst loc (getNextIndex s.usedIndices))
               ptySpawns := s.ptySpawns ++ [s.nextId]
               readyTimers := s.readyTimers ++ [s.nextId] } ∧
    createTerminalOp s loc false =
      { s with nextId := s.nextId + 1
               usedIndices := (addSet s.usedIndices (getNextIndex s.usedIndices)).filter
                 (fun j => j != getNextIndex s.usedIndices)
               terminals := eraseT (setT s.terminals s.nextId
                 (mkCreatedInst loc (getNextIndex s.usedIndices))) s.nextId
               ptySpawns := s.ptySpawns ++ [s.nextId] } :=
  ⟨rfl, rfl⟩

theorem createTerminalWithTitleOp_run (s : MState) (title : String) :
    createTerminalWithTitleOp s title true =
      { s with nextId := s.nextId + 1
               usedIndices := (match parseTerminalTitle title with
                 | some i => addSet s.usedIndices i
                 | Option.none => s.usedIndices)
               terminals := setT s.terminals s.nextId
                 { location := TerminalLocation.panel, ready := false, dataQueue := []
                   title := title, index := parseTerminalTitle title }
               ptySpawns := s.ptySpawns ++ [s.nextId]
               readyTimers := s.readyTimers ++ [s.nextId] } := by
  unfold createTerminalWithTitleOp
  cases hp : parseTerminalTitle title <;> simp [hp]

theorem createTerminalWithTitleOp_run_fail (s : MState) (title : String) :
    createTerminalWithTitleOp s title false =
      { s with nextId := s.nextId + 1
               usedIndices := (match parseTerminalTitle title with
                 | some i => (addSet s.usedIndices i).filter (fun j => j != i)
                 | Option.none => s.usedIndices)
               terminals := eraseT (setT s.terminals s.nextId
                 { location := TerminalLocation.panel, ready := false, dataQueue := []
                   title := title, index := parseTerminalTitle title }) s.nextId
               ptySpawns := s.ptySpawns ++ [s.nextId] } := by
  unfold createTerminalWithTitleOp
  cases hp : parseTerminalTitle title <;> simp [hp]

/-! ## Preservation of `InvM` by every manager event -/

theorem invM_of_fields (s t : MState) (hInv : InvM s)
    (ht : t.terminals = s.terminals) (hu : t.uiTrace = s.uiTrace)
    (hn : t.nextId = s.nextId) (hr : t.readyTimers = s.readyTimers) : InvM t :=
  ⟨by rw [ht, hn]; exact hInv.live_lt,
   by rw [ht]; exact hInv.keys_nodup,
   by rw [hu, hn]; exact hInv.trace_lt,
   by rw [ht, hu]; exact hInv.notReady_noTrace,
   by rw [ht]; exact hInv.queue_le,
   by rw [ht, hr]; exact hInv.readyTimers_live⟩

theorem lookupT_some_mem (m : List (Nat × Instance)) (id : Nat) (inst : Instance)
    (h : lookupT m id = some inst) : (id, inst) ∈ m := by
  unfold lookupT at h
  cases hfd : m.find? (fun p => p.1 == id) with
  | none => rw [hfd] at h; cases h
  | some x =>
    rw [hfd] at h
    have hpx := List.find?_some hfd
    have hx1 : x.1 = id := by simpa using hpx
    have hx2 : x.2 = inst := Option.some.inj h
    have hmem := List.mem_of_find?_eq_some hfd
    rw [← hx1, ← hx2]
    exact hmem

theorem invM_postToTerminal (s : MState) (id : Nat) (msg : Msg) (hInv : InvM s) :
    InvM (postToTerminal s id msg) := by
  unfold postToTerminal
  cases h : lookupT s.terminals id with
  | none => exact hInv
  | some inst =>
    dsimp only
    by_cases hr : inst.ready
    · rw [if_pos hr]
      have hidlt : id < s.nextId := hInv.live_lt (id, inst) (lookupT_some_mem _ _ _ h)
      refine ⟨hInv.live_lt, hInv.keys_nodup, ?_, ?_, hInv.queue_le, hInv.readyTimers_live⟩
      · intro e he
        rcases List.mem_append.mp he with he | he
        · exact hInv.trace_lt e he
        · have : e = (id, msg) := by simpa using he
          rw [this]
          exact hidlt
      · intro p hp hpready m' hm'
        rcases List.mem_append.mp hm' with hm' | hm'
        · exact hInv.notReady_noTrace p hp hpready m' hm'
        · have heq : (p.1, m') = (id, msg) := by simpa using hm'
          have hp1 : p.1 = id := congrArg Prod.fst heq
          have := lookupT_of_mem s.terminals hInv.keys_nodup p hp
          rw [hp1, h] at this
          have : p.2 = inst := (Option.some.inj this).symm
          rw [this] at hpready
          rw [hpready] at hr
          cases hr
    · rw [if_neg hr]
      exact hInv

theorem invM_updateInst (s : MState) (id : Nat) (f : Instance → Instance)
    (hfr : ∀ j, (f j).ready = j.ready)
    (hfq : ∀ q, q ∈ s.terminals → q.1 = id →
      (f q.2).dataQueue.length ≤ MAX_DATA_QUEUE_SIZE)
    (hInv : InvM s) : InvM { s with terminals := updateInst s.terminals id f } := by
  refine ⟨?_, ?_, hInv.trace_lt, ?_, ?_, ?_⟩
  · intro p hp
    obtain ⟨q, hq, hk, _⟩ := mem_updateInst _ _ _ _ hp
    show p.1 < s.nextId
    rw [hk]
    exact hInv.live_lt q hq
  · show ((updateInst s.terminals id f).map (fun p => p.1)).Nodup
    rw [updateInst_keys]
    exact hInv.keys_nodup
  · intro p hp hpready m' hm'
    obtain ⟨q, hq, hk, hval⟩ := mem_updateInst _ _ _ _ hp
    have hqready : q.2.ready = false := by
      cases hval with
      | inl he => rw [← he.2]; exact hpready
      | inr he => rw [← hfr q.2, ← he.2]; exact hpready
    have := hInv.notReady_noTrace q hq hqready m'
    rw [hk] at hm'
    exact this hm'
  · intro p hp
    obtain ⟨q, hq, _, hval⟩ := mem_updateInst _ _ _ _ hp
    cases hval with
    | inl he => rw [he.2]; exact hInv.queue_le q hq
    | inr he =>
      rw [he.2]
      exact hfq q hq he.1
  · intro i hi
    show i ∈ (updateInst s.terminals id f).map (fun p => p.1)
    rw [updateInst_keys]
    exact hInv.readyTimers_live i hi

theorem invM_destroyTerminal (s : MState) (id : Nat) (hInv : InvM s) :
    InvM (destroyTerminal s id) := by
  cases h : lookupT s.terminals id with
  | none => rw [destroyTerminal_absent s id h]; exact hInv
  | some inst =>
    obtain ⟨ht, hr, hu, hn, _, _, _⟩ := destroyTerminal_fields s id inst h
    refine ⟨?_, ?_, ?_, ?_, ?_, ?_⟩
    · intro p hp
      rw [ht] at hp
      rw [hn]
      exact hInv.live_lt p (mem_eraseT _ _ _ hp).1
    · rw [ht]
      exact hInv.keys_nodup.sublist (eraseT_keys_sublist _ _)
    · intro e he
      rw [hu] at he
      rw [hn]
      exact hInv.trace_lt e he
    · intro p hp hpready m' hm'
      rw [ht] at hp
      rw [hu] at hm'
      exact hInv.notReady_noTrace p (mem_eraseT _ _ _ hp).1 hpready m' hm'
    · intro p hp
      rw [ht] at hp
      exact hInv.queue_le p (mem_eraseT _ _ _ hp).1
    · intro i hi
      rw [hr] at hi
      have h1 := List.mem_filter.mp hi
      have hne : i ≠ id := by simpa [bne_iff_ne] using h1.2
      have h2 := hInv.readyTimers_live i h1.1
      rw [ht]
      obtain ⟨q, hq, hqi⟩ := List.mem_map.mp h2
      exact List.mem_map.mpr
        ⟨q, mem_eraseT_of_mem _ _ q hq (by rw [hqi]; exact hne), hqi⟩

theorem invM_register (s t : MState) (inst : Instance) (hInv : InvM s)
    (hready : inst.ready = false)
    (ht : t.terminals = s.terminals ++ [(s.nextId, inst)])
    (hn : t.nextId = s.nextId + 1)
    (hu : t.uiTrace = s.uiTrace)
    (hr : t.readyTimers = s.readyTimers ++ [s.nextId])
    (hq : inst.dataQueue.length ≤ MAX_DATA_QUEUE_SIZE) : InvM t := by
  have hkey : s.nextId ∉ s.terminals.map (fun p => p.1) := by
    intro hmem
    obtain ⟨p, hp, hpe⟩ := List.mem_map.mp hmem
    exact absurd hpe (Nat.ne_of_lt (hInv.live_lt p hp))
  refine ⟨?_, ?_, ?_, ?_, ?_, ?_⟩
  · intro p hp
    rw [ht] at hp
    rw [hn]
    rcases List.mem_append.mp hp with hp | hp
    · exact Nat.lt_trans (hInv.live_lt p hp) (Nat.lt_succ_self _)
    · have heq : p = (s.nextId, inst) := by simpa using hp
      rw [heq]
      exact Nat.lt_succ_self _
  · rw [ht, List.map_append, List.nodup_append]
    refine ⟨hInv.keys_nodup, List.nodup_singleton _, ?_⟩
    intro a ha hb
    have : a = s.nextId := by simpa using hb
    rw [this] at ha
    exact hkey ha
  · intro e he
    rw [hu] at he
    rw [hn]
    exact Nat.lt_trans (hInv.trace_lt e he) (Nat.lt_succ_self _)
  · intro p hp hpready m' hm'
    rw [ht] at hp
    rw [hu] at hm'
    rcases List.mem_append.mp hp with hp | hp
    · exact hInv.notReady_noTrace p hp hpready m' hm'
    · have heq : p = (s.nextId, inst) := by simpa using hp
      have h1 : p.1 = s.nextId := by rw [heq]
      rw [h1] at hm'
      exact absurd (hInv.trace_lt _ hm') (Nat.lt_irrefl _)
  · intro p hp
    rw [ht] at hp
    rcases List.mem_append.mp hp with hp | hp
    · exact hInv.queue_le p hp
    · have heq : p = (s.nextId, inst) := by simpa using hp
      rw [heq]
      exact hq
  · intro i hi
    rw [hr] at hi
    rw [ht, List.map_append]
    rcases List.mem_append.mp hi with hi | hi
    · exact List.mem_append_left _ (hInv.readyTimers_live i hi)
    · have : i = s.nextId := by simpa using hi
      rw [this]
      exact List.mem_append_right _ (by simp)

theorem invM_rollback (s t : MState) (hInv : InvM s)
    (ht : t.terminals = s.terminals) (hn : t.nextId = s.nextId + 1)
    (hu : t.uiTrace = s.uiTrace) (hr : t.readyTimers = s.readyTimers) : InvM t :=
  ⟨by rw [ht, hn]; exact fun p hp => Nat.lt_trans (hInv.live_lt p hp) (Nat.lt_succ_self _),
   by rw [ht]; exact hInv.keys_nodup,
   by rw [hu, hn]; exact fun e he => Nat.lt_trans (hInv.trace_lt e he) (Nat.lt_succ_self _),
   by rw [ht, hu]; exact hInv.notReady_noTrace,
   by rw [ht]; exact hInv.queue_le,
   by rw [ht, hr]; exact hInv.readyTimers_live⟩

theorem eraseT_append_fresh (m : List (Nat × Instance)) (n : Nat) (inst : Instance)
    (hm : ∀ p ∈ m, p.1 < n) : eraseT (m ++ [(n, inst)]) n = m := by
  unfold eraseT
  rw [List.filter_append]
  have h1 : m.filter (fun p => p.1 != n) = m :=
    List.filter_eq_self.mpr (fun p hp => by
      simpa [bne_iff_ne] using Nat.ne_of_lt (hm p hp))
  simp [h1]

theorem invM_createTerminalOp (s : MState) (loc : TerminalLocation) (ok : Bool)
    (hInv : InvM s) : InvM (createTerminalOp s loc ok) := by
  have hfresh : lookupT s.terminals s.nextId = Option.none :=
    lookupT_eq_none_of_lt _ _ hInv.live_lt
  cases ok with
  | true =>
    rw [(createTerminalOp_run s loc).1]
    refine invM_register s _ (mkCreatedInst loc (getNextIndex s.usedIndices)) hInv rfl
      ?_ rfl rfl rfl (by simp [mkCreatedInst])
    show setT s.terminals s.nextId _ = s.terminals ++ [(s.nextId, _)]
    exact setT_of_none _ _ _ hfresh
  | false =>
    rw [(createTerminalOp_run s loc).2]
    refine invM_rollback s _ hInv ?_ rfl rfl rfl
    show eraseT (setT s.terminals s.nextId (mkCreatedInst loc (getNextIndex s.usedIndices)))
      s.nextId = s.terminals
    rw [setT_of_none _ _ _ hfresh]
    exact eraseT_append_fresh s.terminals s.nextId _ hInv.live_lt

theorem invM_createTerminalWithTitleOp (s : MState) (title : String) (ok : Bool)
    (hInv : InvM s) : InvM (createTerminalWithTitleOp s title ok) := by
  have hfresh : lookupT s.terminals s.nextId = Option.none :=
    lookupT_eq_none_of_lt _ _ hInv.live_lt
  cases ok with
  | true =>
    rw [createTerminalWithTitleOp_run s title]
    refine invM_register s _
      { location := TerminalLocation.panel, ready := false, dataQueue := []
        title := title, index := parseTerminalTitle title } hInv rfl
      ?_ rfl rfl rfl (by simp)
    show setT s.terminals s.nextId _ = s.terminals ++ [(s.nextId, _)]
    exact setT_of_none _ _ _ hfresh
  | false =>
    rw [createTerminalWithTitleOp_run_fail s title]
    refine invM_rollback s _ hInv ?_ rfl rfl rfl
    show eraseT (setT s.terminals s.nextId _) s.nextId = s.terminals
    rw [setT_of_none _ _ _ hfresh]
    exact eraseT_append_fresh s.terminals s.nextId _ hInv.live_lt

theorem invM_ptyDataCore (s0 : MState) (id : Nat) (data : String) (inst : Instance)
    (hInv0 : InvM s0)
    (hq : ∀ q, q ∈ s0.terminals → q.1 = id → q.2.dataQueue = inst.dataQueue) :
    InvM (if inst.ready = false then
        (if inst.dataQueue.length < MAX_DATA_QUEUE_SIZE then
          { s0 with terminals := updateInst s0.terminals id (fun j => { j with dataQueue := j.dataQueue ++ [data] }) }
         else s0)
      else postToTerminal s0 id (Msg.ptyData data)) := by
  by_cases hr : inst.ready = false
  · rw [if_pos hr]
    by_cases hlen : inst.dataQueue.length < MAX_DATA_QUEUE_SIZE
    · rw [if_pos hlen]
      refine invM_updateInst s0 id _ (fun j => rfl) ?_ hInv0
      intro q hqm hq1
      show (q.2.dataQueue ++ [data]).length ≤ MAX_DATA_QUEUE_SIZE
      rw [hq q hqm hq1]
      simpa using Nat.succ_le_of_lt hlen
    · rw [if_neg hlen]
      exact hInv0
  · rw [if_neg hr]
    exact invM_postToTerminal s0 id _ hInv0

theorem invM_handlePtyData (osc7 osc9 : String → Option String) (ne : Bool)
    (s : MState) (id : Nat) (data : String) (hInv : InvM s) :
    InvM (handlePtyData osc7 osc9 ne s id data) := by
  unfold handlePtyData
  cases h : lookupT s.terminals id with
  | none => exact hInv
  | some inst =>
    dsimp only
    have hqbase : ∀ q, q ∈ s.terminals → q.1 = id → q.2.dataQueue = inst.dataQueue := by
      intro q hqm hq1
      have hl := lookupT_of_mem s.terminals hInv.keys_nodup q hqm
      rw [hq1, h] at hl
      rw [(Option.some.inj hl).symm]
    have hnotif : ∀ s2 : MState, InvM s2 →
        InvM (match osc9 data with
          | some m => if ne then { s2 with notifications := s2.notifications ++ [m] } else s2
          | Option.none => s2) ∧
        (match osc9 data with
          | some m => if ne then { s2 with notifications := s2.notifications ++ [m] } else s2
          | Option.none => s2).terminals = s2.terminals := by
      intro s2 h2
      cases osc9 data with
      | none => exact ⟨h2, rfl⟩
      | some m =>
        dsimp only
        by_cases hne : ne
        · rw [if_pos hne]
          exact ⟨invM_of_fields s2 _ h2 rfl rfl rfl rfl, rfl⟩
        · rw [if_neg hne]
          exact ⟨h2, rfl⟩
    cases h7 : osc7 data with
    | none =>
      have hn := hnotif s hInv
      refine invM_ptyDataCore _ id data inst hn.1 ?_
      rw [hn.2]
      exact hqbase
    | some cwd =>
      dsimp only
      have hInvA : InvM { s with terminals := updateInst s.terminals id (fun j => { j with currentCwd := some cwd }) } := by
        refine invM_updateInst s id _ (fun j => rfl) ?_ hInv
        intro q hqm _
        show q.2.dataQueue.length ≤ MAX_DATA_QUEUE_SIZE
        exact hInv.queue_le q hqm
      have hqA : ∀ q, q ∈ (updateInst s.terminals id
          (fun j => { j with currentCwd := some cwd })) → q.1 = id →
          q.2.dataQueue = inst.dataQueue := by
        intro q hqm hq1
        obtain ⟨p, hp, hk, hval⟩ := mem_updateInst _ _ _ _ hqm
        cases hval with
        | inl he => rw [he.2]; exact hqbase p hp (by rw [← hk, hq1])
        | inr he =>
          rw [he.2]
          show p.2.dataQueue = inst.dataQueue
          exact hqbase p hp he.1
      by_cases hr : inst.ready
      · rw [if_pos hr]
        have hInvP := invM_postToTerminal
          { s with terminals := updateInst s.terminals id (fun j => { j with currentCwd := some cwd }) }
          id (Msg.updateCwd cwd) hInvA
        have htP := (postToTerminal_fields
          { s with terminals := updateInst s.terminals id (fun j => { j with currentCwd := some cwd }) }
          id (Msg.updateCwd cwd)).1
        have hn := hnotif _ hInvP
        refine invM_ptyDataCore _ id data inst hn.1 ?_
        rw [hn.2, htP]
        exact hqA
      · rw [if_neg hr]
        have hn := hnotif _ hInvA
        refine invM_ptyDataCore _ id data inst hn.1 ?_
        rw [hn.2]
        exact hqA

theorem invM_handleTerminalReady (s : MState) (id cols rows : Nat)
    (st : DisplaySettings) (th : TerminalTheme) (cf : RuntimeConfig)
    (hInv : InvM s) : InvM (handleTerminalReady s id cols rows st th cf) := by
  cases h : lookupT s.terminals id with
  | none =>
    unfold handleTerminalReady
    rw [h]
    exact hInv
  | some inst =>
    rw [handleTerminalReady_run s id cols rows st th cf inst h]
    have hid : id < s.nextId := hInv.live_lt (id, inst) (lookupT_some_mem _ _ _ h)
    have hnew : ∀ x ∈ (id, Msg.updateSettings st) :: (id, Msg.updateTheme th) ::
        (id, Msg.updateConfig cf) :: inst.dataQueue.map (fun d => (id, Msg.ptyData d)),
        x.1 = id := by
      intro x hx
      rcases List.mem_cons.mp hx with rfl | hx
      · rfl
      rcases List.mem_cons.mp hx with rfl | hx
      · rfl
      rcases List.mem_cons.mp hx with rfl | hx
      · rfl
      obtain ⟨d, _, rfl⟩ := List.mem_map.mp hx
      rfl
    refine ⟨?_, ?_, ?_, ?_, ?_, ?_⟩
    all_goals dsimp only
    · intro p hp
      obtain ⟨q, hq, hk, _⟩ := mem_updateInst _ _ _ _ hp
      obtain ⟨q2, hq2, hk2, _⟩ := mem_updateInst _ _ _ _ hq
      show p.1 < s.nextId
      rw [hk, hk2]
      exact hInv.live_lt q2 hq2
    · show ((updateInst (updateInst s.terminals id (fun j => { j with ready := true }))
        id (fun j => { j with dataQueue := [] })).map (fun p => p.1)).Nodup
      rw [updateInst_keys, updateInst_keys]
      exact hInv.keys_nodup
    · intro e he
      rcases List.mem_append.mp he with he | he
      · exact hInv.trace_lt e he
      · show e.1 < s.nextId
        rw [hnew e he]
        exact hid
    · intro p hp hpready m' hm'
      obtain ⟨q, hq, hk, hval⟩ := mem_updateInst _ _ _ _ hp
      obtain ⟨q2, hq2, hk2, hval2⟩ := mem_updateInst _ _ _ _ hq
      by_cases hpid : p.1 = id
      · have hq1 : q.1 = id := by rw [← hk]; exact hpid
        have hready : p.2.ready = true := by
          rcases hval with ⟨hne, _⟩ | ⟨_, hpe⟩
          · exact absurd hq1 hne
          · have hq21 : q2.1 = id := by rw [← hk2]; exact hq1
            rcases hval2 with ⟨hne2, _⟩ | ⟨_, hqe⟩
            · exact absurd hq21 hne2
            · rw [hpe, hqe]
        rw [hready] at hpready
        cases hpready
      · have hq1 : q.1 ≠ id := by rw [← hk]; exact hpid
        have hpe : p.2 = q.2 := by
          rcases hval with ⟨_, hpe⟩ | ⟨hq1', _⟩
          · exact hpe
          · exact absurd hq1' hq1
        have hq21 : q2.1 ≠ id := by rw [← hk2]; exact hq1
        have hqe : q.2 = q2.2 := by
          rcases hval2 with ⟨_, hqe⟩ | ⟨hq21', _⟩
          · exact hqe
          · exact absurd hq21' hq21
        have h2ready : q2.2.ready = false := by
          rw [← hqe, ← hpe]
          exact hpready
        rcases List.mem_append.mp hm' with hm' | hm'
        · have := hInv.notReady_noTrace q2 hq2 h2ready m'
          rw [hk, hk2] at hm'
          exact this hm'
        · have := hnew (p.1, m') hm'
          exact hpid this
    · intro p hp
      obtain ⟨q, hq, hk, hval⟩ := mem_updateInst _ _ _ _ hp
      obtain ⟨q2, hq2, hk2, hval2⟩ := mem_updateInst _ _ _ _ hq
      rcases hval with ⟨_, hpe⟩ | ⟨_, hpe⟩
      · rcases hval2 with ⟨_, hqe⟩ | ⟨_, hqe⟩
        · rw [hpe, hqe]
          exact hInv.queue_le q2 hq2
        · rw [hpe, hqe]
          show q2.2.dataQueue.length ≤ MAX_DATA_QUEUE_SIZE
          exact hInv.queue_le q2 hq2
      · rw [hpe]
        show ([] : List String).length ≤ MAX_DATA_QUEUE_SIZE
        simp
    · intro i hi
      have h1 := (List.mem_filter.mp hi).1
      show i ∈ ((updateInst (updateInst s.terminals id (fun j => { j with ready := true }))
        id (fun j => { j with dataQueue := [] })).map (fun p => p.1))
      rw [updateInst_keys, updateInst_keys]
      exact hInv.readyTimers_live i h1

theorem invM_handlePtyExit (s : MState) (id : Nat) (code : Int) (hInv : InvM s) :
    InvM (handlePtyExit s id code) := by
  unfold handlePtyExit
  cases h : lookupT s.terminals id with
  | none => exact hInv
  | some inst =>
    dsimp only
    exact invM_of_fields (postToTerminal s id (Msg.ptyExit code)) _
      (invM_postToTerminal s id (Msg.ptyExit code) hInv) rfl rfl rfl rfl

theorem invM_handlePtyError (s : MState) (id : Nat) (hInv : InvM s) :
    InvM (handlePtyError s id) := by
  unfold handlePtyError
  cases h : lookupT s.terminals id with
  | none => exact hInv
  | some inst => exact invM_destroyTerminal s id hInv

theorem invM_exitTimerFire (s : MState) (id : Nat) (hInv : InvM s) :
    InvM (exitTimerFire s id) := by
  unfold exitTimerFire
  by_cases hc : s.exitTimers.contains id
  · rw [if_pos hc]
    exact invM_destroyTerminal _ id (invM_of_fields s _ hInv rfl rfl rfl rfl)
  · rw [if_neg hc]
    exact hInv

theorem invM_readyTimerFire (s : MState) (id : Nat) (hInv : InvM s) :
    InvM (readyTimerFire s id) := by
  unfold readyTimerFire
  by_cases hc : s.readyTimers.contains id
  · rw [if_pos hc]
    have hInvE : InvM { s with readyTimers := s.readyTimers.erase id } := by
      refine ⟨hInv.live_lt, hInv.keys_nodup, hInv.trace_lt, hInv.notReady_noTrace,
        hInv.queue_le, ?_⟩
      intro i hi
      exact hInv.readyTimers_live i (List.mem_of_mem_erase hi)
    dsimp only
    cases h : lookupT ({ s with readyTimers := s.readyTimers.erase id } : MState).terminals
        id with
    | none => exact hInvE
    | some inst =>
      dsimp only
      by_cases hr : inst.ready
      · rw [if_pos hr]
        exact hInvE
      · rw [if_neg hr]
        exact invM_destroyTerminal _ id hInvE
  · rw [if_neg hc]
    exact hInv

theorem invM_stepM (osc7 osc9 : String → Option String) (ne : Bool) (s : MState)
    (op : MOp) (hInv : InvM s) : InvM (stepM osc7 osc9 ne s op) := by
  cases op with
  | create loc ok => exact invM_createTerminalOp s loc ok hInv
  | createWithTitle title ok => exact invM_createTerminalWithTitleOp s title ok hInv
  | ptyData id data => exact invM_handlePtyData osc7 osc9 ne s id data hInv
  | terminalReady id cols rows st th cf =>
    exact invM_handleTerminalReady s id cols rows st th cf hInv
  | terminalInput id data => exact invM_of_fields s _ hInv rfl rfl rfl rfl
  | terminalResize id cols rows => exact invM_of_fields s _ hInv rfl rfl rfl rfl
  | destroy id => exact invM_destroyTerminal s id hInv
  | ptyExit id code => exact invM_handlePtyExit s id code hInv
  | ptyError id => exact invM_handlePtyError s id hInv
  | exitFire id => exact invM_exitTimerFire s id hInv
  | readyFire id => exact invM_readyTimerFire s id hInv

theorem invM_initMState : InvM initMState := by
  constructor <;> simp [initMState]

theorem invM_runFrom (osc7 osc9 : String → Option String) (ne : Bool)
    (ops : List MOp) : ∀ s : MState, InvM s → InvM (runFrom osc7 osc9 ne s ops) := by
  induction ops with
  | nil => intro s h; exact h
  | cons op ops ih =>
    intro s h
    exact ih _ (invM_stepM osc7 osc9 ne s op h)

theorem invM_runM (osc7 osc9 : String → Option String) (ne : Bool) (ops : List MOp) :
    InvM (runM osc7 osc9 ne ops) :=
  invM_runFrom osc7 osc9 ne ops initMState invM_initMState

/-! ## The data path before readiness -/

theorem ptyData_notReady_core (s0 : MState) (id : Nat) (data : String)
    (inst : Instance) (hr : inst.ready = false)
    (hl0 : ∃ inst0, lookupT s0.terminals id = some inst0 ∧
      inst0.dataQueue = inst.dataQueue) :
    (if inst.ready = false then
       (if inst.dataQueue.length < MAX_DATA_QUEUE_SIZE then
          { s0 with terminals := updateInst s0.terminals id (fun j => { j with dataQueue := j.dataQueue ++ [data] }) }
        else s0)
     else postToTerminal s0 id (Msg.ptyData data)).uiTrace = s0.uiTrace ∧
    (inst.dataQueue.length < MAX_DATA_QUEUE_SIZE →
      queueOf (if inst.ready = false then
       (if inst.dataQueue.length < MAX_DATA_QUEUE_SIZE then
          { s0 with terminals := updateInst s0.terminals id (fun j => { j with dataQueue := j.dataQueue ++ [data] }) }
        else s0)
     else postToTerminal s0 id (Msg.ptyData data)) id = some (inst.dataQueue ++ [data])) ∧
    (¬ inst.dataQueue.length < MAX_DATA_QUEUE_SIZE →
      queueOf (if inst.ready = false then
       (if inst.dataQueue.length < MAX_DATA_QUEUE_SIZE then
          { s0 with terminals := updateInst s0.terminals id (fun j => { j with dataQueue := j.dataQueue ++ [data] }) }
        else s0)
     else postToTerminal s0 id (Msg.ptyData data)) id = some inst.dataQueue) := by
  obtain ⟨inst0, hl, hq⟩ := hl0
  rw [if_pos hr]
  refine ⟨?_, ?_, ?_⟩
  · by_cases hlen : inst.dataQueue.length < MAX_DATA_QUEUE_SIZE
    · rw [if_pos hlen]
    · rw [if_neg hlen]
  · intro hlen
    rw [if_pos hlen]
    unfold queueOf
    show (lookupT (updateInst s0.terminals id
      (fun j => { j with dataQueue := j.dataQueue ++ [data] })) id).map
        (fun i => i.dataQueue) = some (inst.dataQueue ++ [data])
    rw [lookupT_updateInst_self, hl]
    simp [hq]
  · intro hlen
    rw [if_neg hlen]
    unfold queueOf
    rw [hl]
    simp [hq]

theorem handlePtyData_not_ready (osc7 osc9 : String → Option String) (ne : Bool)
    (s : MState) (id : Nat) (data : String) (inst : Instance)
    (h : lookupT s.terminals id = some inst) (hr : inst.ready = false) :
    (handlePtyData osc7 osc9 ne s id data).uiTrace = s.uiTrace ∧
    (inst.dataQueue.length < MAX_DATA_QUEUE_SIZE →
      queueOf (handlePtyData osc7 osc9 ne s id data) id =
        some (inst.dataQueue ++ [data])) ∧
    (¬ inst.dataQueue.length < MAX_DATA_QUEUE_SIZE →
      queueOf (handlePtyData osc7 osc9 ne s id data) id = some inst.dataQueue) := by
  unfold handlePtyData
  rw [h]
  dsimp only
  cases h7 : osc7 data with
  | none =>
    cases h9 : osc9 data with
    | none => exact ptyData_notReady_core s id data inst hr ⟨inst, h, rfl⟩
    | some m =>
      dsimp only
      by_cases hne : ne
      · rw [if_pos hne]
        exact ptyData_notReady_core { s with notifications := s.notifications ++ [m] }
          id data inst hr ⟨inst, h, rfl⟩
      · rw [if_neg hne]
        exact ptyData_notReady_core s id data inst hr ⟨inst, h, rfl⟩
  | some cwd =>
    dsimp only
    have hnr : ¬ (inst.ready = true) := by rw [hr]; exact Bool.false_ne_true
    rw [if_neg hnr]
    cases h9 : osc9 data with
    | none =>
      exact ptyData_notReady_core
        { s with terminals := updateInst s.terminals id (fun j => { j with currentCwd := some cwd }) }
        id data inst hr ⟨{ inst with currentCwd := some cwd },
          by show lookupT (updateInst s.terminals id (fun j => { j with currentCwd := some cwd })) id = _
             rw [lookupT_updateInst_self, h]
             rfl, rfl⟩
    | some m =>
      dsimp only
      by_cases hne : ne
      · rw [if_pos hne]
        exact ptyData_notReady_core _ id data inst hr ⟨{ inst with currentCwd := some cwd },
          by show lookupT (updateInst s.terminals id (fun j => { j with currentCwd := some cwd })) id = _
             rw [lookupT_updateInst_self, h]
             rfl, rfl⟩
      · rw [if_neg hne]
        exact ptyData_notReady_core _ id data inst hr ⟨{ inst with currentCwd := some cwd },
          by show lookupT (updateInst s.terminals id (fun j => { j with currentCwd := some cwd })) id = _
             rw [lookupT_updateInst_self, h]
             rfl, rfl⟩

theorem runFrom_cons (osc7 osc9 : String → Option String) (ne : Bool) (s : MState)
    (op : MOp) (ops : List MOp) :
    runFrom osc7 osc9 ne s (op :: ops) =
      runFrom osc7 osc9 ne (stepM osc7 osc9 ne s op) ops := rfl

theorem step_chunk (k : Nat) :
    stepM noScan noScan false (stateAfterChunks k) (MOp.ptyData 0 "c") =
      stateAfterChunks (k + 1) := by
  show handlePtyData noScan noScan false (stateAfterChunks k) 0 "c" =
    stateAfterChunks (k + 1)
  unfold handlePtyData
  rw [show lookupT (stateAfterChunks k).terminals 0 = some (instAfterChunks k) from rfl]
  dsimp only [noScan]
  by_cases hk : k < 1000
  · have hlen : (instAfterChunks k).dataQueue.length < MAX_DATA_QUEUE_SIZE := by
      simp [instAfterChunks, MAX_DATA_QUEUE_SIZE]
      omega
    rw [if_pos (show (instAfterChunks k).ready = false from rfl), if_pos hlen]
    have hq : List.replicate (min k MAX_DATA_QUEUE_SIZE) "c" ++ ["c"] =
        List.replicate (min (k + 1) MAX_DATA_QUEUE_SIZE) "c" := by
      have h1 : min k MAX_DATA_QUEUE_SIZE = k := by
        simp [MAX_DATA_QUEUE_SIZE]
        omega
      have h2 : min (k + 1) MAX_DATA_QUEUE_SIZE = k + 1 := by
        simp [MAX_DATA_QUEUE_SIZE]
        omega
      rw [h1, h2]
      exact (List.replicate_succ' k "c").symm
    simp [stateAfterChunks, instAfterChunks, updateInst, hq]
  · have hlen : ¬ (instAfterChunks k).dataQueue.length < MAX_DATA_QUEUE_SIZE := by
      simp [instAfterChunks, MAX_DATA_QUEUE_SIZE]
      omega
    rw [if_pos (show (instAfterChunks k).ready = false from rfl), if_neg hlen]
    have hmin : min k MAX_DATA_QUEUE_SIZE = min (k + 1) MAX_DATA_QUEUE_SIZE := by
      simp [MAX_DATA_QUEUE_SIZE]
      omega
    simp [stateAfterChunks, instAfterChunks, hmin]

theorem runM_chunkOps (n : Nat) :
    runM noScan noScan false (chunkOps n) = stateAfterChunks n := by
  have hrep : ∀ (m k : Nat),
      runFrom noScan noScan false (stateAfterChunks k)
        (List.replicate m (MOp.ptyData 0 "c")) = stateAfterChunks (k + m) := by
    intro m
    induction m with
    | zero => intro k; rfl
    | succ m ih =>
      intro k
      rw [List.replicate_succ, runFrom_cons, step_chunk k, ih (k + 1)]
      congr 1
      omega
  show runFrom noScan noScan false initMState
    (MOp.create TerminalLocation.panel true :: List.replicate n (MOp.ptyData 0 "c")) =
    stateAfterChunks n
  rw [runFrom_cons,
    show stepM noScan noScan false initMState (MOp.create TerminalLocation.panel true) =
      stateAfterChunks 0 from by decide,
    hrep n 0]
  congr 1
  omega

/-- After 1000 chunks the example instance's queue is exactly at the cap. -/
theorem instAfterChunks_full :
    (instAfterChunks 1000).dataQueue.length = MAX_DATA_QUEUE_SIZE := by
  show (List.replicate (min 1000 MAX_DATA_QUEUE_SIZE) "c").length = MAX_DATA_QUEUE_SIZE
  rw [List.length_replicate]
  decide

/-! ## C1 — buffering before readiness -/

/-- C1 counterexample: after one creation and 1000 buffered chunks the
session (still not ready) has a full queue; the 1001st chunk `"x"` is NOT
appended to the buffer queue — refuting the claim that every chunk
arriving while the session is not ready is appended. -/
theorem buffer_append_counterexample :
    runM noScan noScan false (chunkOps 1000) = stateAfterChunks 1000 ∧
    lookupT (stateAfterChunks 1000).terminals 0 = some (instAfterChunks 1000) ∧
    (instAfterChunks 1000).ready = false ∧
    queueOf (handlePtyData noScan noScan false (stateAfterChunks 1000) 0 "x") 0 ≠
      some ((instAfterChunks 1000).dataQueue ++ ["x"]) := by
  refine ⟨runM_chunkOps 1000, rfl, rfl, ?_⟩
  have h := handlePtyData_not_ready noScan noScan false (stateAfterChunks 1000) 0 "x"
    (instAfterChunks 1000) rfl rfl
  have hcap : ¬ (instAfterChunks 1000).dataQueue.length < MAX_DATA_QUEUE_SIZE := by
    rw [instAfterChunks_full]
    exact Nat.lt_irrefl _
  rw [h.2.2 hcap]
  intro hcontra
  have heq := Option.some.inj hcontra
  have hlen := congrArg List.length heq
  simp at hlen

/-- C1 (amended): no message — in particular no `pty-data` — is ever
delivered on a session's UI channel while that session has not completed
its ready handshake, on any event sequence; and a chunk arriving for a
registered not-ready session is never forwarded (the UI trace is
unchanged) and is appended to the session's buffer queue whenever the
queue is below `MAX_DATA_QUEUE_SIZE` (at the cap it is silently dropped,
per the bounded-queue claim). -/
theorem buffer_before_ready (osc7 osc9 : String → Option String) (ne : Bool) :
    (∀ (ops : List MOp) (id : Nat) (inst : Instance),
      lookupT (runM osc7 osc9 ne ops).terminals id = some inst →
      inst.ready = false →
      ∀ m : Msg, (id, m) ∉ (runM osc7 osc9 ne ops).uiTrace) ∧
    (∀ (s : MState) (id : Nat) (data : String) (inst : Instance),
      lookupT s.terminals id = some inst → inst.ready = false →
      (handlePtyData osc7 osc9 ne s id data).uiTrace = s.uiTrace ∧
      (inst.dataQueue.length < MAX_DATA_QUEUE_SIZE →
        queueOf (handlePtyData osc7 osc9 ne s id data) id =
          some (inst.dataQueue ++ [data]))) := by
  constructor
  · intro ops id inst h hr m
    exact (invM_runM osc7 osc9 ne ops).notReady_noTrace (id, inst)
      (lookupT_some_mem _ _ _ h) hr m
  · intro s id data inst h hr
    have hh := handlePtyData_not_ready osc7 osc9 ne s id data inst h hr
    exact ⟨hh.1, hh.2.1⟩

/-- Witness for the amended C1: the not-ready session of `c2State` has
received nothing on its UI channel, and a fourth chunk is appended to its
buffer. -/
theorem buffer_before_ready_witness :
    lookupT c2State.terminals 0 = some c2Inst ∧
    c2Inst.ready = false ∧
    (0, Msg.ptyData "a") ∉ c2State.uiTrace ∧
    queueOf (handlePtyData noScan noScan false c2State 0 "d") 0 =
      some (c2Inst.dataQueue ++ ["d"]) := by
  have h := buffer_before_ready noScan noScan false
  refine ⟨by decide, by decide, ?_, ?_⟩
  · exact h.1 c2Ops 0 c2Inst (by decide) (by decide) (Msg.ptyData "a")
  · exact (h.2 c2State 0 "d" c2Inst (by decide) (by decide)).2 (by decide)

/-! ## C3 — the buffer queue is bounded -/

/-- C3: on every event sequence, every registered session's buffer queue
holds at most `MAX_DATA_QUEUE_SIZE` chunks; and when a chunk arrives for a
registered not-ready session whose queue is exactly at the cap, the queue
is left exactly as it was (the new chunk is dropped, no older chunk is
evicted) and nothing is forwarded.  All transitions are total functions:
no exception can be raised. -/
theorem dataQueue_bounded (osc7 osc9 : String → Option String) (ne : Bool) :
    (∀ (ops : List MOp) (id : Nat) (inst : Instance),
      lookupT (runM osc7 osc9 ne ops).terminals id = some inst →
      inst.dataQueue.length ≤ MAX_DATA_QUEUE_SIZE) ∧
    (∀ (s : MState) (id : Nat) (data : String) (inst : Instance),
      lookupT s.terminals id = some inst → inst.ready = false →
      inst.dataQueue.length = MAX_DATA_QUEUE_SIZE →
      queueOf (handlePtyData osc7 osc9 ne s id data) id = some inst.dataQueue ∧
      (handlePtyData osc7 osc9 ne s id data).uiTrace = s.uiTrace) := by
  constructor
  · intro ops id inst h
    exact (invM_runM osc7 osc9 ne ops).queue_le (id, inst) (lookupT_some_mem _ _ _ h)
  · intro s id data inst h hr hcap
    have hh := handlePtyData_not_ready osc7 osc9 ne s id data inst h hr
    have hnl : ¬ inst.dataQueue.length < MAX_DATA_QUEUE_SIZE := by
      rw [hcap]
      exact Nat.lt_irrefl _
    exact ⟨hh.2.2 hnl, hh.1⟩

/-- Witness for C3: the freshly created session respects the bound, and at
the full queue of `stateAfterChunks 1000` a further chunk leaves the queue
unchanged. -/
theorem dataQueue_bounded_witness :
    lookupT (runM noScan noScan false [MOp.create TerminalLocation.panel true]).terminals
      0 = some (mkCreatedInst TerminalLocation.panel 1) ∧
    (mkCreatedInst TerminalLocation.panel 1).dataQueue.length ≤ MAX_DATA_QUEUE_SIZE ∧
    lookupT (stateAfterChunks 1000).terminals 0 = some (instAfterChunks 1000) ∧
    (instAfterChunks 1000).ready = false ∧
    queueOf (handlePtyData noScan noScan false (stateAfterChunks 1000) 0 "x") 0 =
      some (instAfterChunks 1000).dataQueue := by
  have h := dataQueue_bounded noScan noScan false
  refine ⟨by decide, ?_, rfl, rfl, ?_⟩
  · exact h.1 [MOp.create TerminalLocation.panel true] 0 _ (by decide)
  · exact (h.2 (stateAfterChunks 1000) 0 "x" (instAfterChunks 1000) rfl rfl
      instAfterChunks_full).1

/-! ## C9 — timer cancellation on teardown -/

/-- C9 counterexample: create a session, let its PTY exit (arming the
anonymous exit-grace timer), then close it explicitly.  The session is
gone from the registry but the exit-grace timer is still armed: the source
never stores that timer's handle, so no teardown path can clear it. -/
theorem exit_timer_stale_counterexample :
    lookupT (runM noScan noScan false
      [MOp.create TerminalLocation.panel true, MOp.ptyExit 0 0,
       MOp.destroy 0]).terminals 0 = Option.none ∧
    0 ∈ (runM noScan noScan false
      [MOp.create TerminalLocation.panel true, MOp.ptyExit 0 0,
       MOp.destroy 0]).exitTimers := by
  exact ⟨by decide, by decide⟩

/-- C9 (amended): the ready-timeout timer is cleared on every teardown
path — on every event sequence an armed ready timer always belongs to a
session still in the registry — while the PTY-exit grace-delay timer is
never cancelled (its handle is not stored); instead, a stale exit timer
firing for an already-removed session consumes the timer and changes
nothing else, via the idempotency guard of `destroyTerminal`. -/
theorem timer_cancellation_amended (osc7 osc9 : String → Option String) (ne : Bool) :
    (∀ (ops : List MOp) (i : Nat),
      i ∈ (runM osc7 osc9 ne ops).readyTimers →
      i ∈ (runM osc7 osc9 ne ops).terminals.map (fun p => p.1)) ∧
    (∀ (s : MState) (id : Nat), lookupT s.terminals id = Option.none →
      exitTimerFire s id = { s with exitTimers := s.exitTimers.erase id }) := by
  constructor
  · intro ops i hi
    exact (invM_runM osc7 osc9 ne ops).readyTimers_live i hi
  · intro s id h
    unfold exitTimerFire
    by_cases hc : s.exitTimers.contains id
    · rw [if_pos hc]
      exact destroyTerminal_absent _ id h
    · rw [if_neg hc]
      have he : s.exitTimers.erase id = s.exitTimers :=
        List.erase_of_not_mem (fun hm => hc (List.elem_eq_true_of_mem hm))
      rw [he]

/-- Witness for the amended C9: the fresh session's armed ready timer
belongs to a registered session; and firing the stale exit timer of the
destroyed session of the counterexample run only consumes the timer. -/
theorem timer_cancellation_amended_witness :
    0 ∈ (runM noScan noScan false [MOp.create TerminalLocation.panel true]).readyTimers ∧
    0 ∈ (runM noScan noScan false
      [MOp.create TerminalLocation.panel true]).terminals.map (fun p => p.1) ∧
    lookupT (runM noScan noScan false [MOp.create TerminalLocation.panel true,
      MOp.ptyExit 0 0, MOp.destroy 0]).terminals 0 = Option.none ∧
    exitTimerFire (runM noScan noScan false [MOp.create TerminalLocation.panel true,
      MOp.ptyExit 0 0, MOp.destroy 0]) 0 =
      { runM noScan noScan false [MOp.create TerminalLocation.panel true,
          MOp.ptyExit 0 0, MOp.destroy 0] with
        exitTimers := (runM noScan noScan false [MOp.create TerminalLocation.panel true,
          MOp.ptyExit 0 0, MOp.destroy 0]).exitTimers.erase 0 } := by
  have h := timer_cancellation_amended noScan noScan false
  refine ⟨by decide, ?_, by decide, ?_⟩
  · exact h.1 [MOp.create TerminalLocation.panel true] 0 (by decide)
  · exact h.2 (runM noScan noScan false [MOp.create TerminalLocation.panel true,
      MOp.ptyExit 0 0, MOp.destroy 0]) 0 (by decide)

/-! ## C5 — index allocation -/

theorem length_filter_ge_succ_le (i : Nat) (used : List Nat) :
    (used.filter (fun x => i + 1 ≤ x)).length ≤
      (used.filter (fun x => i ≤ x)).length := by
  induction used with
  | nil => simp
  | cons a t ih =>
    by_cases h1 : i + 1 ≤ a
    · have h0 : i ≤ a := Nat.le_of_succ_le h1
      simp [List.filter_cons, h1, h0]
      omega
    · by_cases h0 : i ≤ a
      · simp [List.filter_cons, h1, h0]
        omega
      · simp [List.filter_cons, h1, h0]
        exact ih

theorem length_filter_ge_succ_lt (i : Nat) (used : List Nat) (h : i ∈ used) :
    (used.filter (fun x => i + 1 ≤ x)).length <
      (used.filter (fun x => i ≤ x)).length := by
  induction used with
  | nil => cases h
  | cons a t ih =>
    rcases List.mem_cons.mp h with heq | hmem
    · subst heq
      have h1 : ¬ (i + 1 ≤ i) := Nat.not_succ_le_self i
      have h0 : i ≤ i := Nat.le_refl i
      have hle := length_filter_ge_succ_le i t
      simp [List.filter_cons, h1, h0]
      omega
    · by_cases h1 : i + 1 ≤ a
      · have h0 : i ≤ a := Nat.le_of_succ_le h1
        have hlt := ih hmem
        simp [List.filter_cons, h1, h0]
        omega
      · by_cases h0 : i ≤ a
        · have hlt := ih hmem
          simp [List.filter_cons, h1, h0]
          omega
        · simp [List.filter_cons, h1, h0]
          exact ih hmem

theorem getNextIndexGo_not_mem (used : List Nat) :
    ∀ (fuel i : Nat), (used.filter (fun x => i ≤ x)).length < fuel →
      getNextIndexGo used i fuel ∉ used := by
  intro fuel
  induction fuel with
  | zero => intro i h; exact absurd h (Nat.not_lt_zero _)
  | succ fuel ih =>
    intro i h
    unfold getNextIndexGo
    by_cases hc : used.contains i = true
    · rw [if_pos hc]
      apply ih
      have hmem : i ∈ used := List.mem_of_elem_eq_true hc
      have hlt := length_filter_ge_succ_lt i used hmem
      omega
    · rw [if_neg hc]
      intro hmem
      exact hc (List.elem_eq_true_of_mem hmem)

theorem getNextIndexGo_ge (used : List Nat) :
    ∀ (fuel i : Nat), i ≤ getNextIndexGo used i fuel := by
  intro fuel
  induction fuel with
  | zero => intro i; exact Nat.le_refl i
  | succ fuel ih =>
    intro i
    unfold getNextIndexGo
    by_cases hc : used.contains i = true
    · rw [if_pos hc]
      exact Nat.le_trans (Nat.le_succ i) (ih (i + 1))
    · rw [if_neg hc]

theorem getNextIndexGo_min (used : List Nat) :
    ∀ (fuel i j : Nat), i ≤ j → j < getNextIndexGo used i fuel → j ∈ used := by
  intro fuel
  induction fuel with
  | zero =>
    intro i j hij hlt
    unfold getNextIndexGo at hlt
    omega
  | succ fuel ih =>
    intro i j hij hlt
    unfold getNextIndexGo at hlt
    by_cases hc : used.contains i = true
    · rw [if_pos hc] at hlt
      rcases Nat.eq_or_lt_of_le hij with heq | hlt2
      · subst heq
        exact List.mem_of_elem_eq_true hc
      · exact ih (i + 1) j hlt2 hlt
    · rw [if_neg hc] at hlt
      omega

/-- `getNextIndex` returns the smallest positive integer outside `used`. -/
theorem getNextIndex_spec (used : List Nat) :
    getNextIndex used ∉ used ∧ 1 ≤ getNextIndex used ∧
      ∀ j, 1 ≤ j → j < getNextIndex used → j ∈ used := by
  refine ⟨?_, getNextIndexGo_ge used _ 1, fun j h1 hlt => getNextIndexGo_min used _ 1 j h1 hlt⟩
  apply getNextIndexGo_not_mem
  have hle := List.length_filter_le (fun x => decide (1 ≤ x)) used
  omega

theorem lookupT_decomp (m : List (Nat × Instance)) (id : Nat) (inst : Instance)
    (hnd : (m.map (fun p => p.1)).Nodup) (h : lookupT m id = some inst) :
    ∃ m1 m2, m = m1 ++ (id, inst) :: m2 ∧
      (∀ p ∈ m1, p.1 ≠ id) ∧ (∀ p ∈ m2, p.1 ≠ id) := by
  induction m with
  | nil =>
    exfalso
    unfold lookupT at h
    simp [List.find?] at h
  | cons a t ih =>
    rw [List.map_cons, List.nodup_cons] at hnd
    by_cases hb : a.1 = id
    · have heq : lookupT (a :: t) id = some a.2 := by
        unfold lookupT
        simp [List.find?, hb]
      rw [heq] at h
      have ha2 : a.2 = inst := Option.some.inj h
      refine ⟨[], t, ?_, ?_, ?_⟩
      · rw [List.nil_append, ← hb, ← ha2]
      · intro p hp
        cases hp
      · intro p hp hpe
        apply hnd.1
        rw [hb, ← hpe]
        exact List.mem_map.mpr ⟨p, hp, rfl⟩
    · have heq : lookupT (a :: t) id = lookupT t id := by
        unfold lookupT
        have hbb : (a.1 == id) = false := by simp [hb]
        simp [List.find?, hbb]
      rw [heq] at h
      obtain ⟨m1, m2, he, h1, h2⟩ := ih hnd.2 h
      refine ⟨a :: m1, m2, by rw [List.cons_append, he], ?_, h2⟩
      intro p hp
      rcases List.mem_cons.mp hp with heq2 | hp2
      · rw [heq2]
        exact hb
      · exact h1 p hp2

theorem eraseT_decomp (m1 m2 : List (Nat × Instance)) (id : Nat) (inst : Instance)
    (h1 : ∀ p ∈ m1, p.1 ≠ id) (h2 : ∀ p ∈ m2, p.1 ≠ id) :
    eraseT (m1 ++ (id, inst) :: m2) id = m1 ++ m2 := by
  unfold eraseT
  rw [List.filter_append]
  have hm1 : m1.filter (fun p => p.1 != id) = m1 :=
    List.filter_eq_self.mpr (fun p hp => by simpa [bne_iff_ne] using h1 p hp)
  have hm2 : m2.filter (fun p => p.1 != id) = m2 :=
    List.filter_eq_self.mpr (fun p hp => by simpa [bne_iff_ne] using h2 p hp)
  rw [hm1, List.filter_cons]
  simp [hm2]

theorem filterMap_index_middle_some (m1 m2 : List (Nat × Instance)) (id : Nat)
    (inst : Instance) (i : Nat) (hidx : inst.index = some i) :
    (m1 ++ (id, inst) :: m2).filterMap (fun p => p.2.index) =
      m1.filterMap (fun p => p.2.index) ++ i :: m2.filterMap (fun p => p.2.index) := by
  rw [List.filterMap_append, List.filterMap_cons]
  dsimp only
  rw [hidx]

theorem filterMap_index_middle_none (m1 m2 : List (Nat × Instance)) (id : Nat)
    (inst : Instance) (hidx : inst.index = Option.none) :
    (m1 ++ (id, inst) :: m2).filterMap (fun p => p.2.index) =
      m1.filterMap (fun p => p.2.index) ++ m2.filterMap (fun p => p.2.index) := by
  rw [List.filterMap_append, List.filterMap_cons]
  dsimp only
  rw [hidx]

theorem nodup_middle_decomp (A B : List Nat) (i : Nat) (h : (A ++ i :: B).Nodup) :
    i ∉ A ∧ i ∉ B ∧ (A ++ B).Nodup := by
  have hs : (A ++ B).Sublist (A ++ i :: B) :=
    List.Sublist.append_left (List.sublist_cons_self i B) A
  have hAB : (A ++ B).Nodup := List.Nodup.sublist hs h
  rw [List.nodup_append, List.nodup_cons] at h
  exact ⟨fun hiA => h.2.2 hiA (List.mem_cons_self i B), h.2.1.1, hAB⟩

theorem invIdx_of_fields (s t : MState) (hIdx : InvIdx s)
    (ht : t.terminals = s.terminals) (hu : t.usedIndices = s.usedIndices) :
    InvIdx t := by
  have hin : inUse t = inUse s := by
    unfold inUse
    rw [ht]
  exact ⟨by rw [hu]; exact hIdx.used_nodup,
         by rw [hu]; exact hIdx.used_pos,
         by intro i; rw [hu, hin]; exact hIdx.used_iff i,
         by rw [hin]; exact hIdx.inUse_nodup⟩

theorem invIdx_updateInst (s t : MState) (id : Nat) (f : Instance → Instance)
    (hf : ∀ j, (f j).index = j.index) (hIdx : InvIdx s)
    (ht : t.terminals = updateInst s.terminals id f)
    (hu : t.usedIndices = s.usedIndices) : InvIdx t := by
  have hin : inUse t = inUse s := by
    unfold inUse
    rw [ht]
    unfold updateInst
    rw [List.filterMap_map]
    apply List.filterMap_congr
    intro p hp
    by_cases h : p.1 = id <;> simp [Function.comp, h, hf]
  exact ⟨by rw [hu]; exact hIdx.used_nodup,
         by rw [hu]; exact hIdx.used_pos,
         by intro i; rw [hu, hin]; exact hIdx.used_iff i,
         by rw [hin]; exact hIdx.inUse_nodup⟩

theorem invIdx_destroyTerminal (s : MState) (id : Nat)
    (hM : InvM s) (hIdx : InvIdx s) : InvIdx (destroyTerminal s id) := by
  cases h : lookupT s.terminals id with
  | none =>
    rw [destroyTerminal_absent s id h]
    exact hIdx
  | some inst =>
    have hf := destroyTerminal_fields s id inst h
    have hterm := hf.1
    have hused := hf.2.2.2.2.2.2
    obtain ⟨m1, m2, hm, h1, h2⟩ := lookupT_decomp s.terminals id inst hM.keys_nodup h
    have herase : eraseT s.terminals id = m1 ++ m2 := by
      rw [hm]
      exact eraseT_decomp m1 m2 id inst h1 h2
    have hInNew : inUse (destroyTerminal s id) =
        m1.filterMap (fun p => p.2.index) ++ m2.filterMap (fun p => p.2.index) := by
      unfold inUse
      rw [hterm, herase, List.filterMap_append]
    cases hidx : inst.index with
    | none =>
      have hInOld : inUse s =
          m1.filterMap (fun p => p.2.index) ++ m2.filterMap (fun p => p.2.index) := by
        unfold inUse
        rw [hm]
        exact filterMap_index_middle_none m1 m2 id inst hidx
      have hused2 : (destroyTerminal s id).usedIndices = s.usedIndices := by
        rw [hused, hidx]
      have hin : inUse (destroyTerminal s id) = inUse s := by
        rw [hInNew, hInOld]
      exact ⟨by rw [hused2]; exact hIdx.used_nodup,
             by rw [hused2]; exact hIdx.used_pos,
             by intro i; rw [hused2, hin]; exact hIdx.used_iff i,
             by rw [hin]; exact hIdx.inUse_nodup⟩
    | some i =>
      have hInOld : inUse s = m1.filterMap (fun p => p.2.index) ++
          i :: m2.filterMap (fun p => p.2.index) := by
        unfold inUse
        rw [hm]
        exact filterMap_index_middle_some m1 m2 id inst i hidx
      have hused2 : (destroyTerminal s id).usedIndices =
          s.usedIndices.filter (fun j => j != i) := by
        rw [hused, hidx]
      have hnd := hIdx.inUse_nodup
      rw [hInOld] at hnd
      obtain ⟨hiA, hiB, hABnd⟩ := nodup_middle_decomp _ _ i hnd
      refine ⟨?_, ?_, ?_, ?_⟩
      · rw [hused2]
        exact List.Nodup.filter _ hIdx.used_nodup
      · intro j hj
        rw [hused2] at hj
        exact hIdx.used_pos j (List.mem_filter.mp hj).1
      · intro j
        rw [hused2, hInNew]
        constructor
        · intro hj
          obtain ⟨hj1, hj2⟩ := List.mem_filter.mp hj
          have hjne : j ≠ i := by simpa [bne_iff_ne] using hj2
          have hjIn : j ∈ inUse s := (hIdx.used_iff j).mp hj1
          rw [hInOld] at hjIn
          rcases List.mem_append.mp hjIn with hA | hB
          · exact List.mem_append.mpr (Or.inl hA)
          · rcases List.mem_cons.mp hB with heq | hB2
            · exact absurd heq hjne
            · exact List.mem_append.mpr (Or.inr hB2)
        · intro hj
          have hjne : j ≠ i := by
            rcases List.mem_append.mp hj with hA | hB
            · intro he
              rw [he] at hA
              exact hiA hA
            · intro he
              rw [he] at hB
              exact hiB hB
          have hjOld : j ∈ inUse s := by
            rw [hInOld]
            rcases List.mem_append.mp hj with hA | hB
            · exact List.mem_append.mpr (Or.inl hA)
            · exact List.mem_append.mpr (Or.inr (List.mem_cons.mpr (Or.inr hB)))
          refine List.mem_filter.mpr ⟨(hIdx.used_iff j).mpr hjOld, ?_⟩
          simpa [bne_iff_ne] using hjne
      · rw [hInNew]
        exact hABnd

theorem invIdx_register (s t : MState) (n id0 : Nat) (inst : Instance)
    (hinst : inst.index = some n)
    (hnm : n ∉ s.usedIndices) (hIdx : InvIdx s) (hpos : 1 ≤ n)
    (ht : t.terminals = s.terminals ++ [(id0, inst)])
    (hu : t.usedIndices = s.usedIndices ++ [n]) : InvIdx t := by
  have hin : inUse t = inUse s ++ [n] := by
    unfold inUse
    rw [ht, List.filterMap_append]
    simp [List.filterMap_cons, hinst]
  have hnin : n ∉ inUse s := fun hcontra => hnm ((hIdx.used_iff n).mpr hcontra)
  refine ⟨?_, ?_, ?_, ?_⟩
  · rw [hu, List.nodup_append]
    refine ⟨hIdx.used_nodup, List.nodup_singleton n, ?_⟩
    intro a ha hb
    rw [List.mem_singleton] at hb
    rw [hb] at ha
    exact hnm ha
  · intro i hi
    rw [hu] at hi
    rcases List.mem_append.mp hi with hA | hB
    · exact hIdx.used_pos i hA
    · rw [List.mem_singleton] at hB
      rw [hB]
      exact hpos
  · intro i
    rw [hu, hin]
    simp [List.mem_append, hIdx.used_iff i]
  · rw [hin, List.nodup_append]
    refine ⟨hIdx.inUse_nodup, List.nodup_singleton n, ?_⟩
    intro a ha hb
    rw [List.mem_singleton] at hb
    rw [hb] at ha
    exact hnin ha

theorem invIdx_createTerminalOp (s : MState) (loc : TerminalLocation) (ok : Bool)
    (hM : InvM s) (hIdx : InvIdx s) : InvIdx (createTerminalOp s loc ok) := by
  have hfresh : lookupT s.terminals s.nextId = Option.none :=
    lookupT_eq_none_of_lt _ _ hM.live_lt
  have hset : setT s.terminals s.nextId
      (mkCreatedInst loc (getNextIndex s.usedIndices)) =
      s.terminals ++ [(s.nextId, mkCreatedInst loc (getNextIndex s.usedIndices))] :=
    setT_of_none _ _ _ hfresh
  obtain ⟨hnm, hpos, hmin⟩ := getNextIndex_spec s.usedIndices
  have hc : ¬ (s.usedIndices.contains (getNextIndex s.usedIndices) = true) :=
    fun hcc => hnm (List.mem_of_elem_eq_true hcc)
  have hadd : addSet s.usedIndices (getNextIndex s.usedIndices) =
      s.usedIndices ++ [getNextIndex s.usedIndices] := by
    unfold addSet
    rw [if_neg hc]
  cases ok with
  | false =>
    rw [(createTerminalOp_run s loc).2]
    apply invIdx_of_fields s _ hIdx
    · show eraseT (setT s.terminals s.nextId
        (mkCreatedInst loc (getNextIndex s.usedIndices))) s.nextId = s.terminals
      rw [hset]
      exact eraseT_append_fresh s.terminals s.nextId _ hM.live_lt
    · show (addSet s.usedIndices (getNextIndex s.usedIndices)).filter
        (fun j => j != getNextIndex s.usedIndices) = s.usedIndices
      rw [hadd, List.filter_append]
      have hself : s.usedIndices.filter
          (fun j => j != getNextIndex s.usedIndices) = s.usedIndices :=
        List.filter_eq_self.mpr (fun a ha => by
          simp [bne_iff_ne]
          intro he
          rw [he] at ha
          exact hnm ha)
      rw [hself]
      simp
  | true =>
    rw [(createTerminalOp_run s loc).1]
    apply invIdx_register s _ (getNextIndex s.usedIndices) s.nextId
      (mkCreatedInst loc (getNextIndex s.usedIndices)) rfl hnm hIdx hpos
    · show setT s.terminals s.nextId
        (mkCreatedInst loc (getNextIndex s.usedIndices)) = _
      exact hset
    · show addSet s.usedIndices (getNextIndex s.usedIndices) = _
      exact hadd

theorem invIdx_transport (s t : MState) (hIdx : InvIdx s)
    (hin : inUse t = inUse s) (hu : t.usedIndices = s.usedIndices) : InvIdx t :=
  ⟨by rw [hu]; exact hIdx.used_nodup,
   by rw [hu]; exact hIdx.used_pos,
   by intro i; rw [hu, hin]; exact hIdx.used_iff i,
   by rw [hin]; exact hIdx.inUse_nodup⟩

theorem filterMap_index_updateInst (m : List (Nat × Instance)) (id : Nat)
    (f : Instance → Instance) (hf : ∀ j, (f j).index = j.index) :
    (updateInst m id f).filterMap (fun p => p.2.index) =
      m.filterMap (fun p => p.2.index) := by
  unfold updateInst
  rw [List.filterMap_map]
  apply List.filterMap_congr
  intro p hp
  by_cases h : p.1 = id <;> simp [Function.comp, h, hf]

theorem handlePtyData_idx (osc7 osc9 : String → Option String) (ne : Bool)
    (s : MState) (id : Nat) (data : String) :
    inUse (handlePtyData osc7 osc9 ne s id data) = inUse s ∧
    (handlePtyData osc7 osc9 ne s id data).usedIndices = s.usedIndices := by
  unfold handlePtyData
  cases h : lookupT s.terminals id with
  | none => exact ⟨rfl, rfl⟩
  | some inst =>
    dsimp only
    have hupd : ∀ (t : MState) (f : Instance → Instance), (∀ j, (f j).index = j.index) →
        inUse { t with terminals := updateInst t.terminals id f } = inUse t := by
      intro t f hf
      unfold inUse
      dsimp only
      exact filterMap_index_updateInst t.terminals id f hf
    have hpost : ∀ (t : MState) (m : Msg),
        inUse (postToTerminal t id m) = inUse t ∧
        (postToTerminal t id m).usedIndices = t.usedIndices := by
      intro t m
      have hf := postToTerminal_fields t id m
      refine ⟨?_, hf.2.2.2.1⟩
      unfold inUse
      rw [hf.1]
    have hY : inUse (match osc7 data with
        | some cwd =>
          if inst.ready then
            postToTerminal { s with terminals := updateInst s.terminals id (fun j => { j with currentCwd := some cwd }) } id (Msg.updateCwd cwd)
          else { s with terminals := updateInst s.terminals id (fun j => { j with currentCwd := some cwd }) }
        | Option.none => s) = inUse s ∧
        (match osc7 data with
        | some cwd =>
          if inst.ready then
            postToTerminal { s with terminals := updateInst s.terminals id (fun j => { j with currentCwd := some cwd }) } id (Msg.updateCwd cwd)
          else { s with terminals := updateInst s.terminals id (fun j => { j with currentCwd := some cwd }) }
        | Option.none => s).usedIndices = s.usedIndices := by
      cases h7 : osc7 data with
      | none => exact ⟨rfl, rfl⟩
      | some cwd =>
        dsimp only
        by_cases hr : inst.ready
        · rw [if_pos hr]
          have hp := hpost { s with terminals := updateInst s.terminals id (fun j => { j with currentCwd := some cwd }) } (Msg.updateCwd cwd)
          refine ⟨?_, hp.2⟩
          rw [hp.1]
          exact hupd s (fun j => { j with currentCwd := some cwd }) (fun j => rfl)
        · rw [if_neg hr]
          exact ⟨hupd s (fun j => { j with currentCwd := some cwd }) (fun j => rfl), rfl⟩
    have hX : ∀ t : MState, inUse t = inUse s → t.usedIndices = s.usedIndices →
        inUse (match osc9 data with
          | some m => if ne then { t with notifications := t.notifications ++ [m] } else t
          | Option.none => t) = inUse s ∧
        (match osc9 data with
          | some m => if ne then { t with notifications := t.notifications ++ [m] } else t
          | Option.none => t).usedIndices = s.usedIndices := by
      intro t hti htu
      cases h9 : osc9 data with
      | none => exact ⟨hti, htu⟩
      | some m =>
        dsimp only
        by_cases hne : ne
        · rw [if_pos hne]
          exact ⟨hti, htu⟩
        · rw [if_neg hne]
          exact ⟨hti, htu⟩
    have hZ : ∀ t : MState, inUse t = inUse s → t.usedIndices = s.usedIndices →
        inUse (if inst.ready = false then
            (if inst.dataQueue.length < MAX_DATA_QUEUE_SIZE then
              { t with terminals := updateInst t.terminals id (fun j => { j with dataQueue := j.dataQueue ++ [data] }) }
             else t)
          else postToTerminal t id (Msg.ptyData data)) = inUse s ∧
        (if inst.ready = false then
            (if inst.dataQueue.length < MAX_DATA_QUEUE_SIZE then
              { t with terminals := updateInst t.terminals id (fun j => { j with dataQueue := j.dataQueue ++ [data] }) }
             else t)
          else postToTerminal t id (Msg.ptyData data)).usedIndices = s.usedIndices := by
      intro t hti htu
      by_cases hr : inst.ready = false
      · rw [if_pos hr]
        by_cases hlen : inst.dataQueue.length < MAX_DATA_QUEUE_SIZE
        · rw [if_pos hlen]
          refine ⟨?_, htu⟩
          rw [hupd t (fun j => { j with dataQueue := j.dataQueue ++ [data] }) (fun j => rfl)]
          exact hti
        · rw [if_neg hlen]
          exact ⟨hti, htu⟩
      · rw [if_neg hr]
        have hp := hpost t (Msg.ptyData data)
        exact ⟨by rw [hp.1]; exact hti, by rw [hp.2]; exact htu⟩
    exact hZ _ (hX _ hY.1 hY.2).1 (hX _ hY.1 hY.2).2

theorem invIdx_handleTerminalReady (s : MState) (id cols rows : Nat)
    (st : DisplaySettings) (th : TerminalTheme) (cf : RuntimeConfig)
    (hIdx : InvIdx s) : InvIdx (handleTerminalReady s id cols rows st th cf) := by
  cases h : lookupT s.terminals id with
  | none =>
    unfold handleTerminalReady
    rw [h]
    exact hIdx
  | some inst =>
    rw [handleTerminalReady_run s id cols rows st th cf inst h]
    apply invIdx_transport s _ hIdx
    · unfold inUse
      dsimp only
      rw [filterMap_index_updateInst _ id (fun j => { j with dataQueue := [] }) (fun j => rfl)]
      exact filterMap_index_updateInst _ id (fun j => { j with ready := true }) (fun j => rfl)
    · rfl

theorem invIdx_handlePtyExit (s : MState) (id : Nat) (code : Int) (hIdx : InvIdx s) :
    InvIdx (handlePtyExit s id code) := by
  unfold handlePtyExit
  cases h : lookupT s.terminals id with
  | none => exact hIdx
  | some inst =>
    dsimp only
    have hf := postToTerminal_fields s id (Msg.ptyExit code)
    apply invIdx_transport s _ hIdx
    · unfold inUse
      dsimp only
      rw [hf.1]
    · dsimp only
      exact hf.2.2.2.1

theorem invIdx_handlePtyError (s : MState) (id : Nat) (hM : InvM s) (hIdx : InvIdx s) :
    InvIdx (handlePtyError s id) := by
  unfold handlePtyError
  cases h : lookupT s.terminals id with
  | none => exact hIdx
  | some inst => exact invIdx_destroyTerminal s id hM hIdx

theorem invIdx_exitTimerFire (s : MState) (id : Nat) (hM : InvM s) (hIdx : InvIdx s) :
    InvIdx (exitTimerFire s id) := by
  unfold exitTimerFire
  by_cases hc : s.exitTimers.contains id = true
  · rw [if_pos hc]
    apply invIdx_destroyTerminal
    · exact invM_of_fields s _ hM rfl rfl rfl rfl
    · exact invIdx_of_fields s _ hIdx rfl rfl
  · rw [if_neg hc]
    exact hIdx

theorem invIdx_readyTimerFire (s : MState) (id : Nat) (hM : InvM s) (hIdx : InvIdx s) :
    InvIdx (readyTimerFire s id) := by
  unfold readyTimerFire
  by_cases hc : s.readyTimers.contains id
  · rw [if_pos hc]
    have hME : InvM { s with readyTimers := s.readyTimers.erase id } := by
      refine ⟨hM.live_lt, hM.keys_nodup, hM.trace_lt, hM.notReady_noTrace,
        hM.queue_le, ?_⟩
      intro i hi
      exact hM.readyTimers_live i (List.mem_of_mem_erase hi)
    have hIE : InvIdx { s with readyTimers := s.readyTimers.erase id } :=
      invIdx_of_fields s _ hIdx rfl rfl
    dsimp only
    cases h : lookupT ({ s with readyTimers := s.readyTimers.erase id } : MState).terminals
        id with
    | none => exact hIE
    | some inst =>
      dsimp only
      by_cases hr : inst.ready
      · rw [if_pos hr]
        exact hIE
      · rw [if_neg hr]
        exact invIdx_destroyTerminal _ id hME hIE
  · rw [if_neg hc]
    exact hIdx

theorem invIdx_stepM (osc7 osc9 : String → Option String) (ne : Bool) (s : MState)
    (op : MOp) (hstd : stdOp op = true) (hM : InvM s) (hIdx : InvIdx s) :
    InvIdx (stepM osc7 osc9 ne s op) := by
  cases op with
  | create loc ok => exact invIdx_createTerminalOp s loc ok hM hIdx
  | createWithTitle title ok => exact absurd hstd (by simp [stdOp])
  | ptyData id data =>
    have h := handlePtyData_idx osc7 osc9 ne s id data
    exact invIdx_transport s _ hIdx h.1 h.2
  | terminalReady id cols rows st th cf =>
    exact invIdx_handleTerminalReady s id cols rows st th cf hIdx
  | terminalInput id data => exact invIdx_of_fields s _ hIdx rfl rfl
  | terminalResize id cols rows => exact invIdx_of_fields s _ hIdx rfl rfl
  | destroy id => exact invIdx_destroyTerminal s id hM hIdx
  | ptyExit id code => exact invIdx_handlePtyExit s id code hIdx
  | ptyError id => exact invIdx_handlePtyError s id hM hIdx
  | exitFire id => exact invIdx_exitTimerFire s id hM hIdx
  | readyFire id => exact invIdx_readyTimerFire s id hM hIdx

theorem invIdx_initMState : InvIdx initMState := by
  constructor <;> simp [initMState, inUse]

theorem invIdx_runFrom (osc7 osc9 : String → Option String) (ne : Bool)
    (ops : List MOp) : ∀ s : MState, allStd ops = true → InvM s → InvIdx s →
      InvIdx (runFrom osc7 osc9 ne s ops) := by
  induction ops with
  | nil =>
    intro s _ _ h
    exact h
  | cons op ops ih =>
    intro s hstd hM hIdx
    unfold allStd at hstd
    rw [List.all_cons, Bool.and_eq_true] at hstd
    rw [runFrom_cons]
    exact ih _ hstd.2 (invM_stepM osc7 osc9 ne s op hM)
      (invIdx_stepM osc7 osc9 ne s op hstd.1 hM hIdx)

theorem invIdx_runM (osc7 osc9 : String → Option String) (ne : Bool) (ops : List MOp)
    (hstd : allStd ops = true) : InvIdx (runM osc7 osc9 ne ops) :=
  invIdx_runFrom osc7 osc9 ne ops initMState hstd invM_initMState invIdx_initMState

/-- C5 counterexample: the claim fails on the title-restoration creation
path, which the claim's own sources cite as a creation.  Restoring two
sessions with the saved title `Terminal 2` registers two live sessions
both carrying index 2 — the indices in use are duplicated — and restoring
a single session titled `Terminal 5` into an empty manager assigns index
5 although 1 is the smallest unused positive integer. -/
theorem index_allocation_counterexample :
    ¬ (inUse (runM noScan noScan false
        [MOp.createWithTitle "Terminal 2" true,
         MOp.createWithTitle "Terminal 2" true])).Nodup ∧
    lookupT (runM noScan noScan false
        [MOp.createWithTitle "Terminal 5" true]).terminals 0 =
      some { location := TerminalLocation.panel, ready := false, dataQueue := [],
             title := "Terminal 5", index := some 5 } ∧
    1 ∉ inUse (runM noScan noScan false [MOp.createWithTitle "Terminal 5" true]) := by
  exact ⟨by decide, by decide, by decide⟩

/-- C5 (amended): on every index-standard event sequence — one avoiding
`createPanelTerminalWithTitle`, whose index is parsed from the restored
title without a liveness check — the indices in use are pairwise distinct
and coincide with the reserved-index set, and the next standard creation
is assigned the smallest positive integer not in use: the allocated index
is positive, free and minimal, and the created session is registered under
the fresh id carrying exactly that index. -/
theorem index_allocation_amended (osc7 osc9 : String → Option String) (ne : Bool)
    (ops : List MOp) (hstd : allStd ops = true) :
    (inUse (runM osc7 osc9 ne ops)).Nodup ∧
    (∀ i, i ∈ (runM osc7 osc9 ne ops).usedIndices ↔
      i ∈ inUse (runM osc7 osc9 ne ops)) ∧
    1 ≤ getNextIndex (runM osc7 osc9 ne ops).usedIndices ∧
    getNextIndex (runM osc7 osc9 ne ops).usedIndices ∉ inUse (runM osc7 osc9 ne ops) ∧
    (∀ j, 1 ≤ j → j < getNextIndex (runM osc7 osc9 ne ops).usedIndices →
      j ∈ inUse (runM osc7 osc9 ne ops)) ∧
    ∀ loc, lookupT (createTerminalOp (runM osc7 osc9 ne ops) loc true).terminals
        (runM osc7 osc9 ne ops).nextId =
      some (mkCreatedInst loc (getNextIndex (runM osc7 osc9 ne ops).usedIndices)) := by
  have hIdx := invIdx_runM osc7 osc9 ne ops hstd
  have hM := invM_runM osc7 osc9 ne ops
  obtain ⟨hnm, hpos, hmin⟩ := getNextIndex_spec (runM osc7 osc9 ne ops).usedIndices
  refine ⟨hIdx.inUse_nodup, hIdx.used_iff, hpos, ?_, ?_, ?_⟩
  · intro hcontra
    exact hnm ((hIdx.used_iff _).mpr hcontra)
  · intro j h1 hlt
    exact (hIdx.used_iff j).mp (hmin j h1 hlt)
  · intro loc
    have hfresh : lookupT (runM osc7 osc9 ne ops).terminals
        (runM osc7 osc9 ne ops).nextId = Option.none :=
      lookupT_eq_none_of_lt _ _ hM.live_lt
    rw [(createTerminalOp_run (runM osc7 osc9 ne ops) loc).1]
    dsimp only
    rw [setT_of_none _ _ _ hfresh]
    rw [lookupT_append_of_none _ _ _ hfresh]
    unfold lookupT
    simp [List.find?]

/-- Witness for the amended C5: two standard creations followed by the
close of the first session leave a duplicate-free index set, and the freed
index 1 is exactly the next one allocated. -/
theorem index_allocation_amended_witness :
    allStd [MOp.create TerminalLocation.panel true,
      MOp.create TerminalLocation.panel true, MOp.destroy 0] = true ∧
    (inUse (runM noScan noScan false [MOp.create TerminalLocation.panel true,
      MOp.create TerminalLocation.panel true, MOp.destroy 0])).Nodup ∧
    getNextIndex (runM noScan noScan false [MOp.create TerminalLocation.panel true,
      MOp.create TerminalLocation.panel true, MOp.destroy 0]).usedIndices = 1 ∧
    getNextIndex (runM noScan noScan false [MOp.create TerminalLocation.panel true,
      MOp.create TerminalLocation.panel true, MOp.destroy 0]).usedIndices ∉
      inUse (runM noScan noScan false [MOp.create TerminalLocation.panel true,
        MOp.create TerminalLocation.panel true, MOp.destroy 0]) := by
  have h := index_allocation_amended noScan noScan false
    [MOp.create TerminalLocation.panel true, MOp.create TerminalLocation.panel true,
      MOp.destroy 0] (by decide)
  exact ⟨by decide, h.1, by decide, h.2.2.2.1⟩
